import Mathlib

/-!
# The lockless event free list of the latency tracker

A shallow embedding of `src/wrapper/freelist-ll.h`: a pool of
`latency_tracker_event` records kept in one lockless list per CPU
(`ll_events_per_cpu_free_list`) and one global list (`ll_events_free_list`).

Conventions of the embedding:

* a lockless list (`struct llist_head`) is the `List` of the records linked in
  it, head first; `llist_add` is `::`;
* a record is identified by its address `addr`; `kzalloc` is a bump allocator
  over a counter `heap` and fails exactly where an allocation outcome table
  (`alloc_oracle`) says so;
* C `int` values are integers; the arithmetic on `free_list_nelems` and
  `max_resize` is reduced by `wrap32` at every operation;
* the functions run on one CPU at a time (the quiescent, sequential reading);
  `cpu` is the CPU the caller is pinned to and `nr_cpus` the number of online
  CPUs, numbered `0 .. nr_cpus - 1`.
-/

namespace FreelistLL

/-! ## Machine integers, buffers, lockless lists -/

/-- Value of a C `int` computation: two's complement wrap-around to 32 bits. -/
def wrap32 (x : Int) : Int :=
  (x + 2147483648) % 4294967296 - 2147483648

/-- The values a C `int` can hold. -/
def is_int32 (x : Int) : Prop :=
  -2147483648 ≤ x ∧ x < 2147483648

instance (x : Int) : Decidable (is_int32 x) := by
  unfold is_int32; infer_instance

/-- A buffer obtained from `kzalloc`: its address and its bytes. -/
structure buffer where
  ptr : Nat
  bytes : List Nat
deriving DecidableEq

/-- Modelled from the spec: `struct latency_tracker_event`, whose declaration
is not part of the header. `addr` is the address of the record (its identity),
`payload` the bytes in front of `priv_data` (everything
`offsetof(struct latency_tracker_event, priv_data)` covers, the `llist` link
included) read as one little-endian number, so that `0` is the all-zero
state; `priv_data` is the optional private-data buffer (`none` is `NULL`) and
`tkey_key` the key buffer `tkey.key`, whose pointer lies behind `priv_data`,
out of reach of the first `memset` of `__wrapper_freelist_put_event` (the
comment at lines 234-238 asks for that). -/
structure latency_tracker_event where
  addr : Nat
  payload : Nat
  priv_data : Option buffer
  tkey_key : buffer
deriving DecidableEq

/-- Modelled from the spec: the fields of `struct latency_tracker` the header
uses; the declaration of the struct is not part of the header.
`resize_event` holds the address of the resize marker (`none` is `NULL`). -/
structure latency_tracker where
  key_size : Nat
  priv_data_size : Nat
  max_resize : Int
  free_list_nelems : Int
  resize_event : Option Nat
  ll_events_free_list : List latency_tracker_event
  ll_events_per_cpu_free_list : Nat → List latency_tracker_event

/-- `llist_add(new, head)`: link `new` in front. -/
def llist_add (e : latency_tracker_event) (head : List latency_tracker_event) :
    List latency_tracker_event :=
  e :: head

/-- `llist_del_first(head)`: unlink and return the first entry, `none` (NULL)
on an empty list; the second component is the list left behind. -/
def llist_del_first (head : List latency_tracker_event) :
    Option latency_tracker_event × List latency_tracker_event :=
  match head with
  | [] => (none, [])
  | e :: rest => (some e, rest)

/-- `llist_del_all(head)`: detach the whole chain; the second component is the
(empty) list left behind. -/
def llist_del_all (head : List latency_tracker_event) :
    List latency_tracker_event × List latency_tracker_event :=
  (head, [])

/-- `memset(p, 0, n)` on a buffer: its first `n` bytes become zero. -/
def memset (bytes : List Nat) (n : Nat) : List Nat :=
  List.replicate (min n bytes.length) 0 ++ bytes.drop n

/-! ## Allocation -/

/-- The three `kzalloc` calls of one loop iteration. -/
inductive alloc_site where
  | event
  | key
  | priv
deriving DecidableEq

/-- Outcome of every `kzalloc` call of one run of an allocation loop:
`ok i site = true` when the call for the record with index `i` succeeds. -/
abbrev alloc_oracle := Nat → alloc_site → Bool

/-- The oracle under which every allocation succeeds. -/
def all_ok : alloc_oracle := fun _ _ => true

/-- The oracle whose allocations for the record with index `k` fail at `site`
and all others succeed. -/
def fail_at (k : Nat) (site : alloc_site) : alloc_oracle :=
  fun i s => !(i == k && s == site)

/-- `kzalloc(size, GFP_KERNEL)`: the next unused address and the advanced
allocator, or `none` (NULL) with the allocator untouched. -/
def kzalloc (success : Bool) (heap : Nat) : Option Nat × Nat :=
  if success then (some heap, heap + 1) else (none, heap)

/-- Lines 67-78 and 105-116 (the same text in both loops): allocate the
record, its key buffer and, when `priv_data_size` is not zero, its
private-data buffer, all zero-filled. `none` is the `goto error` exit; memory
obtained before the failing call stays allocated. -/
def kzalloc_event (ok : alloc_oracle) (i : Nat) (tracker : latency_tracker) (heap : Nat) :
    Option latency_tracker_event × Nat :=
  match kzalloc (ok i alloc_site.event) heap with
  | (none, heap1) => (none, heap1)
  | (some e, heap1) =>
    match kzalloc (ok i alloc_site.key) heap1 with
    | (none, heap2) => (none, heap2)
    | (some key, heap2) =>
      if tracker.priv_data_size ≠ 0 then
        match kzalloc (ok i alloc_site.priv) heap2 with
        | (none, heap3) => (none, heap3)
        | (some priv, heap3) =>
          (some { addr := e, payload := 0,
                  priv_data := some { ptr := priv,
                                      bytes := List.replicate tracker.priv_data_size 0 },
                  tkey_key := { ptr := key, bytes := List.replicate tracker.key_size 0 } },
           heap3)
      else
        (some { addr := e, payload := 0, priv_data := none,
                tkey_key := { ptr := key, bytes := List.replicate tracker.key_size 0 } },
         heap2)

/-- The loop `for (i = 0; i < max_events; i++)` of lines 66-83 and 104-124,
entered at index `i` with `n` iterations to go. The two loops differ only in
the guard of the marker assignment: `tracker->max_resize && (i == max_events/2)`
in `wrapper_freelist_init`, `i == max_events / 2` in `wrapper_resize_work`;
`mark` is the first conjunct. The result is `false` when the loop left through
`goto error`. -/
def alloc_loop (ok : alloc_oracle) (mark : Bool) (max_events : Int) :
    Nat → Nat → Nat → latency_tracker → Bool × Nat × latency_tracker
  | 0, _, heap, tracker => (true, heap, tracker)
  | n + 1, i, heap, tracker =>
    match kzalloc_event ok i tracker heap with
    | (none, heap1) => (false, heap1, tracker)
    | (some e, heap1) =>
      let tracker1 :=
        if mark && ((i : Int) == Int.tdiv max_events 2) then
          { tracker with resize_event := some e.addr }
        else tracker
      alloc_loop ok mark max_events n (i + 1) heap1
        { tracker1 with
          ll_events_free_list := llist_add e tracker1.ll_events_free_list }

/-! ## The functions of the header -/

/-- `init_per_cpu_llist`: `alloc_percpu` hands out zeroed memory, so every
per-CPU list starts empty; `-ENOMEM` (-12) when it fails. -/
def init_per_cpu_llist (percpu_ok : Bool) (tracker : latency_tracker) :
    Int × latency_tracker :=
  if percpu_ok then
    (0, { tracker with ll_events_per_cpu_free_list := fun _ => [] })
  else
    (-12, tracker)

/-- What `wrapper_freelist_init` returns and leaves behind. -/
structure init_result where
  ret : Int
  heap : Nat
  tracker : latency_tracker

/-- `wrapper_freelist_init(tracker, max_events)`. -/
def wrapper_freelist_init (percpu_ok : Bool) (ok : alloc_oracle) (heap : Nat)
    (tracker : latency_tracker) (max_events : Int) : init_result :=
  match init_per_cpu_llist percpu_ok tracker with
  | (r, tracker1) =>
    if r < 0 then
      { ret := -1, heap := heap, tracker := tracker1 }
    else
      let tracker2 := { tracker1 with ll_events_free_list := [] }
      match alloc_loop ok (tracker2.max_resize != 0) max_events max_events.toNat 0 heap
          tracker2 with
      | (false, heap1, tracker3) => { ret := -1, heap := heap1, tracker := tracker3 }
      | (true, heap1, tracker3) =>
        { ret := 0, heap := heap1,
          tracker := { tracker3 with free_list_nelems := max_events } }

/-- The `max_events` of `wrapper_resize_work` (lines 99-100), the number of
records to add. -/
def grow_by (tracker : latency_tracker) : Int :=
  min (wrap32 (tracker.free_list_nelems * 2))
    (wrap32 (tracker.max_resize - tracker.free_list_nelems))

/-- What `wrapper_resize_work` prints and leaves behind: `increasing_to` and
`adding` are the two numbers of the first `printk`, `success` tells which of
"resize success" and "resize error" was printed. -/
structure resize_result where
  increasing_to : Int
  adding : Int
  success : Bool
  heap : Nat
  tracker : latency_tracker

/-- `wrapper_resize_work(tracker)`. -/
def wrapper_resize_work (ok : alloc_oracle) (heap : Nat) (tracker : latency_tracker) :
    resize_result :=
  let max_events := grow_by tracker
  let increasing_to := wrap32 (tracker.free_list_nelems + max_events)
  match alloc_loop ok true max_events max_events.toNat 0 heap tracker with
  | (false, heap1, tracker1) =>
    { increasing_to := increasing_to, adding := max_events, success := false,
      heap := heap1, tracker := tracker1 }
  | (true, heap1, tracker1) =>
    { increasing_to := increasing_to, adding := max_events, success := true,
      heap := heap1,
      tracker := { tracker1 with
        free_list_nelems := wrap32 (tracker1.free_list_nelems + max_events) } }

/-- The loop `llist_for_each_entry_safe` of lines 154-160 and 180-186: free
every record of the chain and count it. The result is the counter and the
records freed so far. The counter is an `int` in the source; it is not wrapped
here, a chain of 2^31 records being out of reach. -/
def free_chain (list : List latency_tracker_event) (cnt : Nat)
    (freed : List latency_tracker_event) : Nat × List latency_tracker_event :=
  match list with
  | [] => (cnt, freed)
  | e :: n => free_chain n (cnt + 1) (freed ++ [e])

/-- One iteration of `for_each_online_cpu` in `free_per_cpu_llist`
(lines 149-162); the state is `total_cnt`, the records freed and the tracker. -/
def free_one_cpu (st : Nat × List latency_tracker_event × latency_tracker) (cpu : Nat) :
    Nat × List latency_tracker_event × latency_tracker :=
  match st with
  | (total_cnt, freed, tracker) =>
    match llist_del_all (tracker.ll_events_per_cpu_free_list cpu) with
    | (list, l) =>
      let tracker1 := { tracker with
        ll_events_per_cpu_free_list :=
          Function.update tracker.ll_events_per_cpu_free_list cpu l }
      if list.isEmpty then (total_cnt, freed, tracker1)
      else
        match free_chain list 0 freed with
        | (cnt, freed1) => (total_cnt + cnt, freed1, tracker1)

/-- `free_per_cpu_llist(tracker)`: returns `total_cnt`. -/
def free_per_cpu_llist (nr_cpus : Nat) (freed : List latency_tracker_event)
    (tracker : latency_tracker) : Nat × List latency_tracker_event × latency_tracker :=
  (List.range nr_cpus).foldl free_one_cpu (0, freed, tracker)

/-- What `wrapper_freelist_destroy` does: the records it passed to `kfree`, in
order, the count of its final `printk` (`none` when that line is not
reached), whether `free_percpu` was called, and the tracker left behind. -/
structure destroy_result where
  freed : List latency_tracker_event
  printed : Option Nat
  percpu_released : Bool
  tracker : latency_tracker

/-- `wrapper_freelist_destroy(tracker)`. -/
def wrapper_freelist_destroy (nr_cpus : Nat) (tracker : latency_tracker) : destroy_result :=
  match llist_del_all tracker.ll_events_free_list with
  | (list, l) =>
    let tracker1 := { tracker with ll_events_free_list := l }
    if list.isEmpty then
      { freed := [], printed := none, percpu_released := false, tracker := tracker1 }
    else
      match free_chain list 0 [] with
      | (cnt, freed) =>
        match free_per_cpu_llist nr_cpus freed tracker1 with
        | (total_cnt, freed1, tracker2) =>
          { freed := freed1, printed := some (cnt + total_cnt), percpu_released := true,
            tracker := tracker2 }

/-- `per_cpu_get(tracker)` on CPU `cpu`. -/
def per_cpu_get (tracker : latency_tracker) (cpu : Nat) :
    Option latency_tracker_event × latency_tracker :=
  match llist_del_first (tracker.ll_events_per_cpu_free_list cpu) with
  | (some node, l) =>
    (some node, { tracker with
      ll_events_per_cpu_free_list :=
        Function.update tracker.ll_events_per_cpu_free_list cpu l })
  | (none, _) =>
    match llist_del_first tracker.ll_events_free_list with
    | (node, l) => (node, { tracker with ll_events_free_list := l })

/-- `wrapper_freelist_get_event(tracker)` on CPU `cpu`: `none` is the `NULL`
of the `error` label. -/
def wrapper_freelist_get_event (tracker : latency_tracker) (cpu : Nat) :
    Option latency_tracker_event × latency_tracker :=
  match per_cpu_get tracker cpu with
  | (none, tracker1) => (none, tracker1)
  | (some node, tracker1) => (some node, tracker1)

/-- The record as `__wrapper_freelist_put_event` links it (lines 239-242):
the bytes in front of `priv_data` zeroed, `key_size` bytes of the key buffer
zeroed, `priv_data_size` bytes of the private-data buffer zeroed when there is
one; the two buffer pointers are kept. -/
def recycled (key_size priv_data_size : Nat) (e : latency_tracker_event) :
    latency_tracker_event :=
  let e1 := { e with payload := 0 }
  let e2 := { e1 with
    tkey_key := { e1.tkey_key with bytes := memset e1.tkey_key.bytes key_size } }
  match e2.priv_data with
  | some b => { e2 with priv_data := some { b with bytes := memset b.bytes priv_data_size } }
  | none => e2

/-- `__wrapper_freelist_put_event(tracker, e)` on CPU `cpu`. -/
def __wrapper_freelist_put_event (tracker : latency_tracker) (cpu : Nat)
    (e : latency_tracker_event) : latency_tracker :=
  { tracker with
    ll_events_per_cpu_free_list :=
      Function.update tracker.ll_events_per_cpu_free_list cpu
        (llist_add (recycled tracker.key_size tracker.priv_data_size e)
          (tracker.ll_events_per_cpu_free_list cpu)) }

/-- `wrapper_freelist_put_event(tracker, e)` on CPU `cpu`. -/
def wrapper_freelist_put_event (tracker : latency_tracker) (cpu : Nat)
    (e : latency_tracker_event) : latency_tracker :=
  __wrapper_freelist_put_event tracker cpu e

/-! ## The pool and its callers -/

/-- The pool in its surroundings: the number of online CPUs, the allocator,
the tracker, and the addresses of the records currently checked out (returned
by `wrapper_freelist_get_event` and not yet put back). -/
structure world where
  nr_cpus : Nat
  heap : Nat
  tracker : latency_tracker
  out : List Nat

/-- One call into the pool. `get cpu` is `wrapper_freelist_get_event` on CPU
`cpu`; `put cpu e` is `wrapper_freelist_put_event` on CPU `cpu` of the record
`e`, with whatever contents its holder left in it; `resize ok` is
`wrapper_resize_work` with allocation outcomes `ok`. -/
inductive action where
  | get (cpu : Nat)
  | put (cpu : Nat) (e : latency_tracker_event)
  | resize (ok : alloc_oracle)

/-- Effect of one call; `none` when the call is not allowed: the CPU is not
online, or the record put back is not checked out. -/
def step (w : world) : action → Option world
  | action.get cpu =>
    if cpu < w.nr_cpus then
      match wrapper_freelist_get_event w.tracker cpu with
      | (none, t) => some { w with tracker := t }
      | (some e, t) => some { w with tracker := t, out := e.addr :: w.out }
    else none
  | action.put cpu e =>
    if cpu < w.nr_cpus ∧ e.addr ∈ w.out then
      some { w with
        tracker := wrapper_freelist_put_event w.tracker cpu e,
        out := w.out.erase e.addr }
    else none
  | action.resize ok =>
    let r := wrapper_resize_work ok w.heap w.tracker
    some { w with heap := r.heap, tracker := r.tracker }

/-- Effect of a sequence of calls, `none` as soon as one is not allowed. -/
def run (w : world) : List action → Option world
  | [] => some w
  | a :: rest =>
    match step w a with
    | none => none
    | some w1 => run w1 rest

/-- The world right after `wrapper_freelist_init(tracker, max_events)` returned
0; `none` when it reported an error. -/
def boot (nr_cpus heap : Nat) (tracker : latency_tracker) (percpu_ok : Bool)
    (ok : alloc_oracle) (max_events : Int) : Option world :=
  let r := wrapper_freelist_init percpu_ok ok heap tracker max_events
  if r.ret = 0 then
    some { nr_cpus := nr_cpus, heap := r.heap, tracker := r.tracker, out := [] }
  else none

/-- A tracker before `wrapper_freelist_init`: the configuration is set, the
counters and the marker are zero, the lists hold nothing. -/
def blank (key_size priv_data_size : Nat) (max_resize : Int) : latency_tracker :=
  { key_size := key_size, priv_data_size := priv_data_size, max_resize := max_resize,
    free_list_nelems := 0, resize_event := none, ll_events_free_list := [],
    ll_events_per_cpu_free_list := fun _ => [] }

/-- Number of records in the per-CPU lists of the online CPUs. -/
def shard_count (nr_cpus : Nat) (tracker : latency_tracker) : Nat :=
  ((List.range nr_cpus).map
    (fun cpu => (tracker.ll_events_per_cpu_free_list cpu).length)).sum

/-- Number of free records: per-CPU lists plus global list. -/
def free_count (nr_cpus : Nat) (tracker : latency_tracker) : Nat :=
  shard_count nr_cpus tracker + tracker.ll_events_free_list.length

/-- Conservation: free records plus checked-out records make up
`free_list_nelems`. -/
def conserved (w : world) : Prop :=
  ((free_count w.nr_cpus w.tracker + w.out.length : Nat) : Int) = w.tracker.free_list_nelems

instance (w : world) : Decidable (conserved w) := by
  unfold conserved; infer_instance

/-- Put back the records of a list, one after the other, on CPU `cpu`. -/
def put_events (tracker : latency_tracker) (cpu : Nat) :
    List latency_tracker_event → latency_tracker
  | [] => tracker
  | e :: rest => put_events (wrapper_freelist_put_event tracker cpu e) cpu rest

/-- Call `wrapper_freelist_get_event` `k` times in a row on CPU `cpu`: the
results in call order, and the tracker left behind. -/
def get_events (tracker : latency_tracker) (cpu : Nat) :
    Nat → List (Option latency_tracker_event) × latency_tracker
  | 0 => ([], tracker)
  | k + 1 =>
    match wrapper_freelist_get_event tracker cpu with
    | (r, tracker1) =>
      match get_events tracker1 cpu k with
      | (rs, tracker2) => (r :: rs, tracker2)

/-! ## Exactly-one-list membership -/

/-- Addresses of the records linked in a list. -/
def addrs (l : List latency_tracker_event) : List Nat :=
  l.map (fun e => e.addr)

/-- The lists of a tracker as one family of address lists: `none` is the
global list, `some cpu` the per-CPU list of `cpu`. -/
def lists_of (tracker : latency_tracker) : Option Nat → List Nat
  | none => addrs tracker.ll_events_free_list
  | some cpu => addrs (tracker.ll_events_per_cpu_free_list cpu)

/-- A family of address lists `F` and the checked-out addresses `O` keep every
address in one place: no list repeats an address, no address is in two lists,
`O` repeats none and shares none with a list. -/
def sep (F : Option Nat → List Nat) (O : List Nat) : Prop :=
  (∀ k, (F k).Nodup) ∧ (∀ k1 k2 a, a ∈ F k1 → a ∈ F k2 → k1 = k2) ∧
    O.Nodup ∧ (∀ k a, a ∈ F k → a ∉ O)

/-- Every record of the pool, free or checked out, lies below the allocator:
`kzalloc` has handed its address out already and will not do so again. -/
def below (w : world) : Prop :=
  (∀ k, ∀ a ∈ lists_of w.tracker k, a < w.heap) ∧ (∀ a ∈ w.out, a < w.heap)

/-- The invariant of the pool: every record is in exactly one place, and
below the allocator. -/
def inv (w : world) : Prop :=
  sep (lists_of w.tracker) w.out ∧ below w

/-- Exactly-one-list membership, spelled out: the global list and every
per-CPU list are duplicate-free, pairwise disjoint, and disjoint from the
duplicate-free collection of checked-out records. -/
def separated (w : world) : Prop :=
  (addrs w.tracker.ll_events_free_list).Nodup ∧
  (∀ cpu, (addrs (w.tracker.ll_events_per_cpu_free_list cpu)).Nodup) ∧
  (∀ cpu, List.Disjoint (addrs (w.tracker.ll_events_per_cpu_free_list cpu))
    (addrs w.tracker.ll_events_free_list)) ∧
  (∀ cpu1 cpu2, cpu1 ≠ cpu2 →
    List.Disjoint (addrs (w.tracker.ll_events_per_cpu_free_list cpu1))
      (addrs (w.tracker.ll_events_per_cpu_free_list cpu2))) ∧
  w.out.Nodup ∧
  List.Disjoint w.out (addrs w.tracker.ll_events_free_list) ∧
  (∀ cpu, List.Disjoint w.out (addrs (w.tracker.ll_events_per_cpu_free_list cpu)))

/-- No call of the sequence puts the record with address `a` back. -/
def no_put_of (a : Nat) : List action → Prop
  | [] => True
  | action.put _ e :: rest => e.addr ≠ a ∧ no_put_of a rest
  | _ :: rest => no_put_of a rest

/-- Every linked record with address `a` is the record `z`. -/
def only_copy (a : Nat) (z : latency_tracker_event) (t : latency_tracker) : Prop :=
  (∀ e ∈ t.ll_events_free_list, e.addr = a → e = z) ∧
  (∀ cpu, ∀ e ∈ t.ll_events_per_cpu_free_list cpu, e.addr = a → e = z)

/-! ## What the allocation loops compute -/

/-- Addresses one completed iteration takes from the allocator. -/
def stride (priv_data_size : Nat) : Nat :=
  if priv_data_size ≠ 0 then 3 else 2

/-- The record a completed iteration builds when the allocator stands at
`heap`. -/
def new_event (key_size priv_data_size heap : Nat) : latency_tracker_event :=
  { addr := heap, payload := 0,
    priv_data :=
      if priv_data_size ≠ 0 then
        some { ptr := heap + 2, bytes := List.replicate priv_data_size 0 }
      else none,
    tkey_key := { ptr := heap + 1, bytes := List.replicate key_size 0 } }

/-- Every allocation the iteration with index `i` makes succeeds. -/
def slot_ok (ok : alloc_oracle) (priv_data_size i : Nat) : Bool :=
  ok i alloc_site.event && ok i alloc_site.key &&
    (priv_data_size == 0 || ok i alloc_site.priv)

/-- Addresses a failing iteration with index `i` took before it failed. -/
def spill (ok : alloc_oracle) (i : Nat) : Nat :=
  if ok i alloc_site.event then (if ok i alloc_site.key then 2 else 1) else 0

/-- Number of iterations completed by a loop of `n` iterations entered at
index `i`: the length of the run of successful iterations. -/
def good_run (ok : alloc_oracle) (priv_data_size : Nat) : Nat → Nat → Nat
  | 0, _ => 0
  | n + 1, i => if slot_ok ok priv_data_size i then good_run ok priv_data_size n (i + 1) + 1 else 0

/-- The records `k` completed iterations build from allocator position `heap`,
last built first: the order in which `llist_add` leaves them. -/
def batch (key_size priv_data_size heap k : Nat) : List latency_tracker_event :=
  ((List.range k).map
    (fun j => new_event key_size priv_data_size (heap + j * stride priv_data_size))).reverse

/-- The marker after `k` completed iterations of a loop entered at index `i`
with the allocator at `heap`; `old` is the marker before. -/
def marker_after (mark : Bool) (max_events : Int) (priv_data_size i k heap : Nat)
    (old : Option Nat) : Option Nat :=
  if mark = true ∧ (i : Int) ≤ Int.tdiv max_events 2 ∧ Int.tdiv max_events 2 < (i : Int) + k then
    some (heap + ((Int.tdiv max_events 2).toNat - i) * stride priv_data_size)
  else old

/-- Number of records one call of `wrapper_resize_work` links into the global
list: the iterations completed before the first failing allocation. -/
def resize_done (ok : alloc_oracle) (tracker : latency_tracker) : Nat :=
  good_run ok tracker.priv_data_size (grow_by tracker).toNat 0

/-- Number of records one call of `wrapper_freelist_init` links into the
global list. -/
def init_done (ok : alloc_oracle) (tracker : latency_tracker) (max_events : Int) : Nat :=
  good_run ok tracker.priv_data_size max_events.toNat 0

/-! ## Book-keeping of the counter -/

/-- Number of records of the pool: free in a list of an online CPU or in the
global list, or checked out. -/
def pool_count (w : world) : Nat :=
  free_count w.nr_cpus w.tracker + w.out.length

/-- Records a call links without counting them in `free_list_nelems`: those a
`wrapper_resize_work` linked before the allocation that made it leave through
`goto error`. -/
def stranded_by (w : world) : action → Nat
  | action.resize ok =>
    if (wrapper_resize_work ok w.heap w.tracker).success then 0
    else resize_done ok w.tracker
  | _ => 0

/-- Records linked without being counted over a sequence of calls. -/
def stranded (w : world) : List action → Nat
  | [] => 0
  | a :: rest =>
    stranded_by w a +
      (match step w a with
       | none => 0
       | some w1 => stranded w1 rest)

/-- The call is a get, a put, or a resize made with `grow_by >= 0`. -/
def growing_call (w : world) : action → Bool
  | action.resize _ => decide (0 ≤ grow_by w.tracker)
  | _ => true

/-- Every call of the sequence, made in the state it meets, is a
`growing_call`. -/
def growing_run (w : world) : List action → Bool
  | [] => true
  | a :: rest =>
    growing_call w a &&
      (match step w a with
       | none => true
       | some w1 => growing_run w1 rest)

/-! ## Lemmas: the allocation loops -/

/-- One iteration either builds `new_event` and takes `stride` addresses, or
fails and keeps what it took. -/
theorem kzalloc_event_eq (ok : alloc_oracle) (i : Nat) (t : latency_tracker) (h : Nat) :
    kzalloc_event ok i t h =
      if slot_ok ok t.priv_data_size i then
        (some (new_event t.key_size t.priv_data_size h), h + stride t.priv_data_size)
      else (none, h + spill ok i) := by
  unfold kzalloc_event kzalloc slot_ok spill new_event stride
  cases h1 : ok i alloc_site.event <;> cases h2 : ok i alloc_site.key <;>
    cases h3 : ok i alloc_site.priv <;> by_cases hp : t.priv_data_size = 0 <;> simp [hp]

/-- The batch of `k + 1` records is the batch of the `k` later ones in front of
the first. -/
theorem batch_succ (ks ps h k : Nat) :
    batch ks ps h (k + 1) = batch ks ps (h + stride ps) k ++ [new_event ks ps h] := by
  unfold batch
  rw [List.range_succ_eq_map]
  simp [List.map_map, Function.comp_def, Nat.succ_mul, Nat.add_mul, Nat.add_assoc, Nat.add_comm, Nat.add_left_comm]

/-- No completed iteration, no new marker. -/
theorem marker_after_zero (mark : Bool) (M : Int) (ps i h : Nat) (old : Option Nat) :
    marker_after mark M ps i 0 h old = old := by
  unfold marker_after
  rw [if_neg]
  rintro ⟨_, h1, h2⟩
  omega

/-- The marker after one iteration followed by `k` more is the marker after
`k + 1` iterations. -/
theorem marker_after_succ (mark : Bool) (M : Int) (ps i k h : Nat) (old : Option Nat) :
    marker_after mark M ps (i + 1) k (h + stride ps)
        (if (mark && ((i : Int) == Int.tdiv M 2)) = true then some h else old) =
      marker_after mark M ps i (k + 1) h old := by
  unfold marker_after
  generalize Int.tdiv M 2 = d
  by_cases hm : mark = true
  · by_cases hi : (i : Int) = d
    · subst hi
      have h1 : ¬ ((i : Int) + 1 ≤ (i : Int)) := by omega
      have h3 : (i : Int) < (i : Int) + ((k + 1 : Nat) : Int) := by omega
      simp [hm, h1, h3]
    · have hb : ((i : Int) == d) = false := by simpa using hi
      simp only [hm, hb, Bool.and_false, Bool.false_eq_true, if_false, true_and]
      by_cases hc : ((i : Int) + 1 ≤ d ∧ d < (i : Int) + 1 + k)
      · have hc2 : (i : Int) ≤ d ∧ d < (i : Int) + ((k + 1 : Nat) : Int) := by
          push_cast; omega
        have h3 : d.toNat - i = (d.toNat - (i + 1)) + 1 := by omega
        rw [if_pos (by push_cast; exact hc), if_pos hc2, h3]
        congr 1
        rw [Nat.add_mul]; omega
      · have hc2 : ¬ ((i : Int) ≤ d ∧ d < (i : Int) + ((k + 1 : Nat) : Int)) := by
          push_cast; omega
        rw [if_neg (by push_cast; exact hc), if_neg hc2]
  · simp [hm]

/-- Writing back the fields of a tracker changes nothing. -/
theorem tracker_eta (t : latency_tracker) :
    ({ t with resize_event := t.resize_event, ll_events_free_list := t.ll_events_free_list } :
      latency_tracker) = t := by
  cases t; rfl

/-- What the allocation loop computes: it completes `good_run` iterations, links
their `batch` in front of the global list, moves the marker as `marker_after`
says, and reports success exactly when it completed all `n`. -/
theorem alloc_loop_eq (ok : alloc_oracle) (mark : Bool) (M : Int) :
    ∀ (n i h : Nat) (t : latency_tracker),
      alloc_loop ok mark M n i h t =
        (decide (good_run ok t.priv_data_size n i = n),
         h + good_run ok t.priv_data_size n i * stride t.priv_data_size +
           (if good_run ok t.priv_data_size n i = n then 0
            else spill ok (i + good_run ok t.priv_data_size n i)),
         { t with
           resize_event :=
             marker_after mark M t.priv_data_size i (good_run ok t.priv_data_size n i) h
               t.resize_event,
           ll_events_free_list :=
             batch t.key_size t.priv_data_size h (good_run ok t.priv_data_size n i) ++
               t.ll_events_free_list }) := by
  intro n
  induction n with
  | zero =>
    intro i h t
    simp [alloc_loop, good_run, batch, marker_after_zero]
  | succ n ih =>
    intro i h t
    rw [alloc_loop, kzalloc_event_eq]
    by_cases hs : slot_ok ok t.priv_data_size i = true
    · have hmk := marker_after_succ mark M t.priv_data_size i
        (good_run ok t.priv_data_size n (i + 1)) h t.resize_event
      have hg : good_run ok t.priv_data_size (n + 1) i =
          good_run ok t.priv_data_size n (i + 1) + 1 := by
        simp [good_run, hs]
      simp only [hs, if_true]
      rw [ih, hg]
      by_cases hm : (mark && ((i : Int) == Int.tdiv M 2)) = true
      · simp only [hm, if_true] at hmk ⊢
        simp only [← hmk, batch_succ, llist_add, new_event]
        simp [Nat.add_mul, Nat.add_assoc, Nat.add_comm, Nat.add_left_comm]
        generalize good_run ok t.priv_data_size n (i + 1) = g
        refine ⟨by omega, ?_⟩
        by_cases hgn : g = n
        · rw [if_pos hgn, if_pos (by omega)]
        · rw [if_neg hgn, if_neg (by omega)]
      · simp only [hm, if_false] at hmk ⊢
        simp only [← hmk, batch_succ, llist_add, new_event]
        simp [Nat.add_mul, Nat.add_assoc, Nat.add_comm, Nat.add_left_comm]
        generalize good_run ok t.priv_data_size n (i + 1) = g
        refine ⟨by omega, ?_⟩
        by_cases hgn : g = n
        · rw [if_pos hgn, if_pos (by omega)]
        · rw [if_neg hgn, if_neg (by omega)]
    · simp [hs, good_run, batch, marker_after_zero]

/-- Every completed iteration takes at least one address. -/
theorem stride_pos (ps : Nat) : 0 < stride ps := by
  unfold stride; split <;> omega

/-- The loop completes at most `n` iterations. -/
theorem good_run_le (ok : alloc_oracle) (ps : Nat) : ∀ n i, good_run ok ps n i ≤ n := by
  intro n
  induction n with
  | zero => intro i; simp [good_run]
  | succ n ih =>
    intro i
    unfold good_run
    split
    · have := ih (i + 1); omega
    · omega

/-- When no allocation fails the loop completes all its iterations. -/
theorem good_run_all (ok : alloc_oracle) (ps : Nat) :
    ∀ n i, (∀ j, i ≤ j → j < i + n → slot_ok ok ps j = true) → good_run ok ps n i = n := by
  intro n
  induction n with
  | zero => intro i _; simp [good_run]
  | succ n ih =>
    intro i h
    unfold good_run
    rw [if_pos (h i (le_refl _) (by omega)), ih (i + 1) (fun j h1 h2 => h j (by omega) (by omega))]

/-- When the first failing iteration has offset `k < n`, the loop completes
exactly `k` iterations. -/
theorem good_run_first_fail (ok : alloc_oracle) (ps : Nat) :
    ∀ n i k, k < n → (∀ j, i ≤ j → j < i + k → slot_ok ok ps j = true) →
      slot_ok ok ps (i + k) = false → good_run ok ps n i = k := by
  intro n
  induction n with
  | zero => intro i k hk; omega
  | succ n ih =>
    intro i k hk h hf
    unfold good_run
    cases k with
    | zero =>
      rw [if_neg]
      simpa using hf
    | succ k =>
      rw [if_pos (h i (le_refl _) (by omega)),
        ih (i + 1) k (by omega) (fun j h1 h2 => h j (by omega) (by omega))
          (by rw [← hf]; congr 1; omega)]

/-- Every completed iteration had all its allocations succeed. -/
theorem good_run_ok (ok : alloc_oracle) (ps : Nat) :
    ∀ n i j, i ≤ j → j < i + good_run ok ps n i → slot_ok ok ps j = true := by
  intro n
  induction n with
  | zero => intro i j h1 h2; simp [good_run] at h2; omega
  | succ n ih =>
    intro i j h1 h2
    unfold good_run at h2
    split at h2
    · rename_i hs
      by_cases hij : j = i
      · rw [hij]; exact hs
      · exact ih (i + 1) j (by omega) (by omega)
    · omega

/-- A loop that stops early stops at a failing iteration. -/
theorem good_run_stop (ok : alloc_oracle) (ps : Nat) :
    ∀ n i, good_run ok ps n i < n → slot_ok ok ps (i + good_run ok ps n i) = false := by
  intro n
  induction n with
  | zero => intro i h; omega
  | succ n ih =>
    intro i h
    unfold good_run at h ⊢
    split
    · rename_i hs
      rw [if_pos hs] at h
      have := ih (i + 1) (by omega)
      rw [← this]; congr 1; omega
    · rename_i hs
      simpa using hs

/-- A batch of `k` iterations has `k` records. -/
theorem batch_length (ks ps h k : Nat) : (batch ks ps h k).length = k := by
  simp [batch]

/-- No iteration, no record. -/
theorem batch_zero (ks ps h : Nat) : batch ks ps h 0 = [] := by
  simp [batch]

/-- The addresses of a batch, last built first. -/
theorem batch_addr (ks ps h k : Nat) :
    (batch ks ps h k).map (fun e => e.addr) =
      ((List.range k).map (fun j => h + j * stride ps)).reverse := by
  simp [batch, List.map_reverse, List.map_map, Function.comp_def, new_event]

/-- The addresses of a batch are the `heap + j * stride` with `j < k`. -/
theorem batch_addr_mem (ks ps h k a : Nat) :
    a ∈ (batch ks ps h k).map (fun e => e.addr) ↔ ∃ j, j < k ∧ a = h + j * stride ps := by
  rw [batch_addr]
  simp
  constructor
  · rintro ⟨j, hj, rfl⟩; exact ⟨j, hj, rfl⟩
  · rintro ⟨j, hj, rfl⟩; exact ⟨j, hj, rfl⟩

/-- The records of a batch lie between the allocator position before and after. -/
theorem batch_addr_bounds (ks ps h k : Nat) (e : latency_tracker_event)
    (he : e ∈ batch ks ps h k) : h ≤ e.addr ∧ e.addr < h + k * stride ps := by
  have hm : e.addr ∈ (batch ks ps h k).map (fun e => e.addr) := List.mem_map_of_mem _ he
  rw [batch_addr_mem] at hm
  obtain ⟨j, hj, hja⟩ := hm
  have hs := stride_pos ps
  have : j * stride ps + stride ps ≤ k * stride ps := by
    have := Nat.mul_le_mul_right (stride ps) (Nat.succ_le_of_lt hj)
    rw [Nat.succ_mul] at this
    exact this
  omega

/-- The records of a batch have pairwise distinct addresses. -/
theorem batch_addr_nodup (ks ps h k : Nat) :
    ((batch ks ps h k).map (fun e => e.addr)).Nodup := by
  rw [batch_addr, List.nodup_reverse]
  apply List.Nodup.map _ (List.nodup_range k)
  intro a b hab
  have hs := stride_pos ps
  have hab2 : h + a * stride ps = h + b * stride ps := hab
  have : a * stride ps = b * stride ps := by omega
  exact Nat.eq_of_mul_eq_mul_right hs this

/-- What `wrapper_resize_work` computes, in closed form. -/
theorem wrapper_resize_work_eq (ok : alloc_oracle) (heap : Nat) (t : latency_tracker) :
    wrapper_resize_work ok heap t =
      { increasing_to := wrap32 (t.free_list_nelems + grow_by t),
        adding := grow_by t,
        success := decide (resize_done ok t = (grow_by t).toNat),
        heap := heap + resize_done ok t * stride t.priv_data_size +
          (if resize_done ok t = (grow_by t).toNat then 0 else spill ok (0 + resize_done ok t)),
        tracker :=
          { t with
            free_list_nelems :=
              if resize_done ok t = (grow_by t).toNat then
                wrap32 (t.free_list_nelems + grow_by t)
              else t.free_list_nelems,
            resize_event :=
              marker_after true (grow_by t) t.priv_data_size 0 (resize_done ok t) heap
                t.resize_event,
            ll_events_free_list :=
              batch t.key_size t.priv_data_size heap (resize_done ok t) ++
                t.ll_events_free_list } } := by
  unfold wrapper_resize_work resize_done
  simp only [alloc_loop_eq]
  by_cases h : good_run ok t.priv_data_size (grow_by t).toNat 0 = (grow_by t).toNat
  · simp [h]
  · simp [h]

/-- What `wrapper_freelist_init` computes when `alloc_percpu` succeeds, in
closed form. -/
theorem wrapper_freelist_init_eq (ok : alloc_oracle) (heap : Nat) (t : latency_tracker)
    (max_events : Int) :
    wrapper_freelist_init true ok heap t max_events =
      { ret := if init_done ok t max_events = max_events.toNat then 0 else -1,
        heap := heap + init_done ok t max_events * stride t.priv_data_size +
          (if init_done ok t max_events = max_events.toNat then 0
           else spill ok (0 + init_done ok t max_events)),
        tracker :=
          { t with
            free_list_nelems :=
              if init_done ok t max_events = max_events.toNat then max_events
              else t.free_list_nelems,
            resize_event :=
              marker_after (t.max_resize != 0) max_events t.priv_data_size 0
                (init_done ok t max_events) heap t.resize_event,
            ll_events_free_list :=
              batch t.key_size t.priv_data_size heap (init_done ok t max_events),
            ll_events_per_cpu_free_list := fun _ => [] } } := by
  unfold wrapper_freelist_init init_per_cpu_llist init_done
  simp only [alloc_loop_eq]
  by_cases h : good_run ok t.priv_data_size max_events.toNat 0 = max_events.toNat
  · simp [h]
  · simp [h]

/-- When `alloc_percpu` fails, `wrapper_freelist_init` returns -1 and touches
nothing. -/
theorem wrapper_freelist_init_enomem (ok : alloc_oracle) (heap : Nat) (t : latency_tracker)
    (max_events : Int) :
    wrapper_freelist_init false ok heap t max_events = { ret := -1, heap := heap, tracker := t } := by
  simp [wrapper_freelist_init, init_per_cpu_llist]

/-! ## Lemmas: get and put -/

/-- The result of `wrapper_freelist_get_event` is that of `per_cpu_get`. -/
theorem wrapper_freelist_get_event_eq (t : latency_tracker) (cpu : Nat) :
    wrapper_freelist_get_event t cpu = per_cpu_get t cpu := by
  unfold wrapper_freelist_get_event
  rcases per_cpu_get t cpu with ⟨_ | node, t1⟩ <;> rfl

/-- A get on a CPU whose list is not empty takes the head of that list. -/
theorem get_event_shard (t : latency_tracker) (cpu : Nat) (e : latency_tracker_event)
    (rest : List latency_tracker_event) (h : t.ll_events_per_cpu_free_list cpu = e :: rest) :
    wrapper_freelist_get_event t cpu =
      (some e, { t with
        ll_events_per_cpu_free_list :=
          Function.update t.ll_events_per_cpu_free_list cpu rest }) := by
  rw [wrapper_freelist_get_event_eq]
  simp [per_cpu_get, llist_del_first, h]

/-- A get on a CPU whose list is empty takes the head of the global list. -/
theorem get_event_global (t : latency_tracker) (cpu : Nat) (e : latency_tracker_event)
    (rest : List latency_tracker_event) (h1 : t.ll_events_per_cpu_free_list cpu = [])
    (h2 : t.ll_events_free_list = e :: rest) :
    wrapper_freelist_get_event t cpu = (some e, { t with ll_events_free_list := rest }) := by
  rw [wrapper_freelist_get_event_eq]
  simp [per_cpu_get, llist_del_first, h1, h2]

/-- A get with both lists empty returns NULL and changes nothing. -/
theorem get_event_empty (t : latency_tracker) (cpu : Nat)
    (h1 : t.ll_events_per_cpu_free_list cpu = []) (h2 : t.ll_events_free_list = []) :
    wrapper_freelist_get_event t cpu = (none, t) := by
  rw [wrapper_freelist_get_event_eq]
  simp [per_cpu_get, llist_del_first, h1, h2]
  cases t
  simp_all

/-- A put links the recycled record in front of the list of the CPU. -/
theorem put_event_eq (t : latency_tracker) (cpu : Nat) (e : latency_tracker_event) :
    wrapper_freelist_put_event t cpu e =
      { t with
        ll_events_per_cpu_free_list :=
          Function.update t.ll_events_per_cpu_free_list cpu
            (recycled t.key_size t.priv_data_size e :: t.ll_events_per_cpu_free_list cpu) } := rfl

/-- Recycling keeps the address of the record. -/
theorem recycled_addr (ks ps : Nat) (e : latency_tracker_event) :
    (recycled ks ps e).addr = e.addr := by
  unfold recycled
  cases h : e.priv_data <;> simp [h]

/-- A sequence of puts on one CPU stacks the recycled records on its list. -/
theorem put_events_eq (cpu : Nat) (es : List latency_tracker_event) :
    ∀ t : latency_tracker, put_events t cpu es =
      { t with
        ll_events_per_cpu_free_list :=
          Function.update t.ll_events_per_cpu_free_list cpu
            ((es.map (recycled t.key_size t.priv_data_size)).reverse ++
              t.ll_events_per_cpu_free_list cpu) } := by
  induction es with
  | nil => intro t; cases t; simp [put_events]
  | cons e es ih =>
    intro t
    rw [put_events, ih, put_event_eq]
    simp

/-- As many gets as a CPU list has records in front of `rest` return these
records in list order. -/
theorem get_events_shard (t : latency_tracker) (cpu : Nat)
    (rest : List latency_tracker_event) :
    ∀ l : List latency_tracker_event,
      get_events { t with
          ll_events_per_cpu_free_list :=
            Function.update t.ll_events_per_cpu_free_list cpu (l ++ rest) } cpu l.length =
        (l.map some, { t with
          ll_events_per_cpu_free_list :=
            Function.update t.ll_events_per_cpu_free_list cpu rest }) := by
  intro l
  induction l generalizing t with
  | nil => simp [get_events]
  | cons e l ih =>
    simp only [List.length_cons, get_events]
    rw [get_event_shard _ cpu e (l ++ rest) (by simp)]
    have := ih t
    simp only [Function.update_idem] at this ⊢
    rw [this]
    simp

/-! ## Lemmas: every record in one place -/

/-- Taking the head of one list and checking it out keeps every address in one
place. -/
theorem sep_pop {F F1 : Option Nat → List Nat} {O : List Nat} {k : Option Nat} {a : Nat}
    {l : List Nat} (h : sep F O) (hk : F k = a :: l) (hk1 : F1 k = l)
    (hr : ∀ k1, k1 ≠ k → F1 k1 = F k1) : sep F1 (a :: O) := by
  obtain ⟨h1, h2, h3, h4⟩ := h
  have hsub : ∀ k1 x, x ∈ F1 k1 → x ∈ F k1 := by
    intro k1 x hx
    by_cases hkk : k1 = k
    · subst hkk; rw [hk]; rw [hk1] at hx; exact List.mem_cons_of_mem _ hx
    · rw [hr k1 hkk] at hx; exact hx
  have hnd : (a :: l).Nodup := hk ▸ h1 k
  have hak : a ∈ F k := by rw [hk]; exact List.mem_cons_self _ _
  refine ⟨?_, ?_, ?_, ?_⟩
  · intro k1
    by_cases hkk : k1 = k
    · subst hkk; rw [hk1]; exact (List.nodup_cons.mp hnd).2
    · rw [hr k1 hkk]; exact h1 k1
  · intro k1 k2 x hx1 hx2
    exact h2 k1 k2 x (hsub _ _ hx1) (hsub _ _ hx2)
  · exact List.nodup_cons.mpr ⟨h4 k a hak, h3⟩
  · intro k1 x hx hmem
    rcases List.mem_cons.mp hmem with hxa | hxo
    · subst hxa
      have hkk : k1 = k := h2 k1 k x (hsub _ _ hx) hak
      subst hkk
      rw [hk1] at hx
      exact (List.nodup_cons.mp hnd).1 hx
    · exact h4 k1 x (hsub _ _ hx) hxo

/-- Linking a checked-out address in front of one list keeps every address in
one place. -/
theorem sep_push {F F1 : Option Nat → List Nat} {O : List Nat} {k : Option Nat} {a : Nat}
    (h : sep F O) (ha : a ∈ O) (hk1 : F1 k = a :: F k)
    (hr : ∀ k1, k1 ≠ k → F1 k1 = F k1) : sep F1 (O.erase a) := by
  obtain ⟨h1, h2, h3, h4⟩ := h
  have hnot : ∀ k1, a ∉ F k1 := fun k1 hm => h4 k1 a hm ha
  have hcase : ∀ k1 x, x ∈ F1 k1 → (x = a ∧ k1 = k) ∨ (x ≠ a ∧ x ∈ F k1) := by
    intro k1 x hx
    by_cases hkk : k1 = k
    · subst hkk
      rw [hk1] at hx
      rcases List.mem_cons.mp hx with hxa | hxf
      · exact Or.inl ⟨hxa, rfl⟩
      · refine Or.inr ⟨?_, hxf⟩
        rintro rfl; exact hnot _ hxf
    · rw [hr k1 hkk] at hx
      refine Or.inr ⟨?_, hx⟩
      rintro rfl; exact hnot _ hx
  refine ⟨?_, ?_, ?_, ?_⟩
  · intro k1
    by_cases hkk : k1 = k
    · subst hkk; rw [hk1]; exact List.nodup_cons.mpr ⟨hnot _, h1 _⟩
    · rw [hr k1 hkk]; exact h1 k1
  · intro k1 k2 x hx1 hx2
    rcases hcase k1 x hx1 with ⟨hxa, hk1k⟩ | ⟨hxa, hm1⟩
    · rcases hcase k2 x hx2 with ⟨_, hk2k⟩ | ⟨hxa2, _⟩
      · rw [hk1k, hk2k]
      · exact absurd hxa hxa2
    · rcases hcase k2 x hx2 with ⟨hxa2, _⟩ | ⟨_, hm2⟩
      · exact absurd hxa2 hxa
      · exact h2 k1 k2 x hm1 hm2
  · exact h3.erase a
  · intro k1 x hx hmem
    rcases hcase k1 x hx with ⟨hxa, _⟩ | ⟨_, hm1⟩
    · subst hxa
      exact (h3.mem_erase_iff.mp hmem).1 rfl
    · exact h4 k1 x hm1 (List.mem_of_mem_erase hmem)

/-- Linking fresh, pairwise distinct addresses in front of one list keeps every
address in one place. -/
theorem sep_grow {F F1 : Option Nat → List Nat} {O : List Nat} {k : Option Nat}
    {B : List Nat} (h : sep F O) (hB : B.Nodup)
    (hfresh : ∀ a ∈ B, (∀ k1, a ∉ F k1) ∧ a ∉ O) (hk1 : F1 k = B ++ F k)
    (hr : ∀ k1, k1 ≠ k → F1 k1 = F k1) : sep F1 O := by
  obtain ⟨h1, h2, h3, h4⟩ := h
  have hcase : ∀ k1 x, x ∈ F1 k1 → (x ∈ B ∧ k1 = k) ∨ (x ∉ B ∧ x ∈ F k1) := by
    intro k1 x hx
    by_cases hkk : k1 = k
    · subst hkk
      rw [hk1] at hx
      rcases List.mem_append.mp hx with hxb | hxf
      · exact Or.inl ⟨hxb, rfl⟩
      · exact Or.inr ⟨fun hb => (hfresh x hb).1 _ hxf, hxf⟩
    · rw [hr k1 hkk] at hx
      exact Or.inr ⟨fun hb => (hfresh x hb).1 _ hx, hx⟩
  refine ⟨?_, ?_, h3, ?_⟩
  · intro k1
    by_cases hkk : k1 = k
    · subst hkk; rw [hk1]
      exact List.Nodup.append hB (h1 _) (fun x hb hf => (hfresh x hb).1 _ hf)
    · rw [hr k1 hkk]; exact h1 k1
  · intro k1 k2 x hx1 hx2
    rcases hcase k1 x hx1 with ⟨hxb, hk1k⟩ | ⟨hxb, hm1⟩
    · rcases hcase k2 x hx2 with ⟨_, hk2k⟩ | ⟨hxb2, _⟩
      · rw [hk1k, hk2k]
      · exact absurd hxb hxb2
    · rcases hcase k2 x hx2 with ⟨hxb2, _⟩ | ⟨_, hm2⟩
      · exact absurd hxb2 hxb
      · exact h2 k1 k2 x hm1 hm2
  · intro k1 x hx
    rcases hcase k1 x hx with ⟨hxb, _⟩ | ⟨_, hm1⟩
    · exact (hfresh x hxb).2
    · exact h4 k1 x hm1

/-- The family form of the invariant gives the spelled-out form. -/
theorem separated_of_sep (w : world) (h : sep (lists_of w.tracker) w.out) : separated w := by
  obtain ⟨h1, h2, h3, h4⟩ := h
  refine ⟨h1 none, fun c => h1 (some c), ?_, ?_, h3, ?_, ?_⟩
  · intro c x hx hg
    have := h2 (some c) none x hx hg
    simp at this
  · intro c1 c2 hc x hx1 hx2
    have := h2 (some c1) (some c2) x hx1 hx2
    simp at this
    exact hc this
  · intro x hx hg
    exact h4 none x hg hx
  · intro c x hx hs
    exact h4 (some c) x hs hx

/-- A change of one per-CPU list leaves the other lists of the family alone. -/
theorem lists_of_other (t t1 : latency_tracker) (cpu : Nat) (l : List latency_tracker_event)
    (hg : t1.ll_events_free_list = t.ll_events_free_list)
    (hp : t1.ll_events_per_cpu_free_list =
      Function.update t.ll_events_per_cpu_free_list cpu l) :
    ∀ k1, k1 ≠ some cpu → lists_of t1 k1 = lists_of t k1 := by
  intro k1 hk
  cases k1 with
  | none => simp [lists_of, hg]
  | some c =>
    have hc : c ≠ cpu := fun hcc => hk (by rw [hcc])
    simp [lists_of, hp, Function.update_noteq hc]

/-- A change of the global list leaves the per-CPU lists of the family alone. -/
theorem lists_of_global_other (t t1 : latency_tracker)
    (hp : t1.ll_events_per_cpu_free_list = t.ll_events_per_cpu_free_list) :
    ∀ k1, k1 ≠ none → lists_of t1 k1 = lists_of t k1 := by
  intro k1 hk
  cases k1 with
  | none => exact absurd rfl hk
  | some c => simp [lists_of, hp]

/-- The invariant survives a get served by a per-CPU list. -/
theorem inv_get_shard (w : world) (cpu : Nat) (e : latency_tracker_event)
    (rest : List latency_tracker_event) (h : inv w)
    (hs : w.tracker.ll_events_per_cpu_free_list cpu = e :: rest) :
    inv { w with
      tracker := { w.tracker with
        ll_events_per_cpu_free_list :=
          Function.update w.tracker.ll_events_per_cpu_free_list cpu rest },
      out := e.addr :: w.out } := by
  obtain ⟨hsep, hb1, hb2⟩ := h
  have hk : lists_of w.tracker (some cpu) = e.addr :: addrs rest := by
    simp [lists_of, hs, addrs]
  have hr := lists_of_other w.tracker { w.tracker with
        ll_events_per_cpu_free_list :=
          Function.update w.tracker.ll_events_per_cpu_free_list cpu rest } cpu rest rfl rfl
  refine ⟨sep_pop hsep hk (by simp [lists_of]) hr, ?_, ?_⟩
  · intro k a ha
    by_cases hkk : k = some cpu
    · subst hkk
      apply hb1 (some cpu) a
      rw [hk]
      simp [lists_of] at ha
      exact List.mem_cons_of_mem _ ha
    · have ha2 := hr k hkk ▸ ha
      exact hb1 k a ha2
  · intro a ha
    rcases List.mem_cons.mp ha with rfl | ha
    · exact hb1 (some cpu) _ (by rw [hk]; exact List.mem_cons_self _ _)
    · exact hb2 a ha

/-- The invariant survives a get served by the global list. -/
theorem inv_get_global (w : world) (e : latency_tracker_event)
    (rest : List latency_tracker_event) (h : inv w)
    (hs : w.tracker.ll_events_free_list = e :: rest) :
    inv { w with
      tracker := { w.tracker with ll_events_free_list := rest },
      out := e.addr :: w.out } := by
  obtain ⟨hsep, hb1, hb2⟩ := h
  have hk : lists_of w.tracker none = e.addr :: addrs rest := by
    simp [lists_of, hs, addrs]
  have hr := lists_of_global_other w.tracker
    { w.tracker with ll_events_free_list := rest } rfl
  refine ⟨sep_pop hsep hk (by simp [lists_of]) hr, ?_, ?_⟩
  · intro k a ha
    by_cases hkk : k = none
    · subst hkk
      apply hb1 none a
      rw [hk]
      simp [lists_of] at ha
      exact List.mem_cons_of_mem _ ha
    · have ha2 := hr k hkk ▸ ha
      exact hb1 k a ha2
  · intro a ha
    rcases List.mem_cons.mp ha with rfl | ha
    · exact hb1 none _ (by rw [hk]; exact List.mem_cons_self _ _)
    · exact hb2 a ha

/-- The invariant survives the put of a checked-out record. -/
theorem inv_put (w : world) (cpu : Nat) (e : latency_tracker_event) (h : inv w)
    (he : e.addr ∈ w.out) :
    inv { w with
      tracker := wrapper_freelist_put_event w.tracker cpu e,
      out := w.out.erase e.addr } := by
  obtain ⟨hsep, hb1, hb2⟩ := h
  have hk : lists_of (wrapper_freelist_put_event w.tracker cpu e) (some cpu) =
      e.addr :: lists_of w.tracker (some cpu) := by
    simp [lists_of, put_event_eq, addrs, recycled_addr]
  have hr := lists_of_other w.tracker (wrapper_freelist_put_event w.tracker cpu e) cpu _ rfl
    (by rw [put_event_eq])
  refine ⟨sep_push hsep he hk hr, ?_, ?_⟩
  · intro k a ha
    by_cases hkk : k = some cpu
    · subst hkk
      rw [hk] at ha
      rcases List.mem_cons.mp ha with rfl | ha
      · exact hb2 _ he
      · exact hb1 _ a ha
    · rw [hr k hkk] at ha
      exact hb1 k a ha
  · intro a ha
    exact hb2 a (List.mem_of_mem_erase ha)

/-- The invariant survives the linking of a batch, however far the allocator
moved beyond it. -/
theorem inv_grow (w : world) (heap1 k : Nat) (m : Option Nat) (c : Int) (h : inv w)
    (hh : w.heap + k * stride w.tracker.priv_data_size ≤ heap1) :
    inv { w with
      heap := heap1,
      tracker := { w.tracker with
        free_list_nelems := c,
        resize_event := m,
        ll_events_free_list :=
          batch w.tracker.key_size w.tracker.priv_data_size w.heap k ++
            w.tracker.ll_events_free_list } } := by
  obtain ⟨hsep, hb1, hb2⟩ := h
  have hbnd : ∀ a ∈ addrs (batch w.tracker.key_size w.tracker.priv_data_size w.heap k),
      w.heap ≤ a ∧ a < heap1 := by
    intro a ha
    obtain ⟨e, he, rfl⟩ := List.mem_map.mp ha
    have := batch_addr_bounds _ _ _ _ e he
    omega
  have hk : lists_of { w.tracker with
        free_list_nelems := c,
        resize_event := m,
        ll_events_free_list :=
          batch w.tracker.key_size w.tracker.priv_data_size w.heap k ++
            w.tracker.ll_events_free_list } none =
      addrs (batch w.tracker.key_size w.tracker.priv_data_size w.heap k) ++
        lists_of w.tracker none := by
    simp [lists_of, addrs]
  have hr := lists_of_global_other w.tracker { w.tracker with
        free_list_nelems := c,
        resize_event := m,
        ll_events_free_list :=
          batch w.tracker.key_size w.tracker.priv_data_size w.heap k ++
            w.tracker.ll_events_free_list } rfl
  have hle : w.heap ≤ heap1 := by omega
  refine ⟨sep_grow hsep (batch_addr_nodup _ _ _ _) ?_ hk hr, ?_, ?_⟩
  · intro a ha
    have hab := hbnd a ha
    refine ⟨fun k1 hm => ?_, fun hm => ?_⟩
    · have := hb1 k1 a hm; omega
    · have := hb2 a hm; omega
  · intro k1 a ha
    by_cases hkk : k1 = none
    · subst hkk
      rw [hk] at ha
      rcases List.mem_append.mp ha with ha | ha
      · exact (hbnd a ha).2
      · have := hb1 none a ha; exact lt_of_lt_of_le this hle
    · rw [hr k1 hkk] at ha
      have := hb1 k1 a ha; exact lt_of_lt_of_le this hle
  · intro a ha
    have := hb2 a ha; exact lt_of_lt_of_le this hle

/-- The invariant survives every call. -/
theorem inv_step (w w1 : world) (a : action) (h : inv w) (hs : step w a = some w1) :
    inv w1 := by
  cases a with
  | get cpu =>
    simp only [step] at hs
    split at hs
    · rcases hshard : w.tracker.ll_events_per_cpu_free_list cpu with _ | ⟨e, rest⟩
      · rcases hglob : w.tracker.ll_events_free_list with _ | ⟨e, rest⟩
        · rw [get_event_empty _ _ hshard hglob] at hs
          simp only [Option.some.injEq] at hs
          subst hs; exact h
        · rw [get_event_global _ _ e rest hshard hglob] at hs
          simp only [Option.some.injEq] at hs
          subst hs; exact inv_get_global w e rest h hglob
      · rw [get_event_shard _ _ e rest hshard] at hs
        simp only [Option.some.injEq] at hs
        subst hs; exact inv_get_shard w cpu e rest h hshard
    · exact absurd hs (by simp)
  | put cpu e =>
    simp only [step] at hs
    split at hs
    · rename_i hg
      simp only [Option.some.injEq] at hs
      subst hs; exact inv_put w cpu e h hg.2
    · exact absurd hs (by simp)
  | resize ok =>
    simp only [step, wrapper_resize_work_eq, Option.some.injEq] at hs
    subst hs
    exact inv_grow w _ _ _ _ h (by omega)

/-- The invariant survives every sequence of calls. -/
theorem inv_run (acts : List action) : ∀ (w w1 : world), inv w → run w acts = some w1 → inv w1 := by
  induction acts with
  | nil => intro w w1 h hr; simp [run] at hr; subst hr; exact h
  | cons a rest ih =>
    intro w w1 h hr
    simp only [run] at hr
    cases hs : step w a with
    | none => rw [hs] at hr; exact absurd hr (by simp)
    | some w2 =>
      rw [hs] at hr
      exact ih w2 w1 (inv_step w w2 a h hs) hr

/-- The world after a successful `wrapper_freelist_init`, in closed form. -/
theorem boot_eq (nr_cpus heap : Nat) (t : latency_tracker) (pok : Bool) (ok : alloc_oracle)
    (N : Int) (w0 : world) (hb : boot nr_cpus heap t pok ok N = some w0) :
    pok = true ∧ init_done ok t N = N.toNat ∧
    w0 = { nr_cpus := nr_cpus,
           heap := heap + N.toNat * stride t.priv_data_size,
           tracker := { t with
             free_list_nelems := N,
             resize_event := marker_after (t.max_resize != 0) N t.priv_data_size 0 N.toNat
               heap t.resize_event,
             ll_events_free_list := batch t.key_size t.priv_data_size heap N.toNat,
             ll_events_per_cpu_free_list := fun _ => [] },
           out := [] } := by
  unfold boot at hb
  cases pok with
  | false => simp [wrapper_freelist_init_enomem] at hb
  | true =>
    rw [wrapper_freelist_init_eq] at hb
    by_cases hd : init_done ok t N = N.toNat
    · simp [hd] at hb
      exact ⟨rfl, hd, hb.symm⟩
    · simp [hd] at hb

/-- The invariant holds after a successful `wrapper_freelist_init`. -/
theorem inv_boot (nr_cpus heap : Nat) (t : latency_tracker) (pok : Bool) (ok : alloc_oracle)
    (N : Int) (w0 : world) (hb : boot nr_cpus heap t pok ok N = some w0) : inv w0 := by
  obtain ⟨_, _, rfl⟩ := boot_eq _ _ _ _ _ _ _ hb
  refine ⟨⟨?_, ?_, List.nodup_nil, ?_⟩, ?_, ?_⟩
  · intro k
    cases k with
    | none => exact batch_addr_nodup _ _ _ _
    | some c => simp [lists_of, addrs]
  · intro k1 k2 a h1 h2
    cases k1 <;> cases k2 <;> simp_all [lists_of, addrs]
  · intro k a _; simp
  · intro k a ha
    cases k with
    | none =>
      obtain ⟨e, he, rfl⟩ := List.mem_map.mp ha
      exact (batch_addr_bounds _ _ _ _ e he).2
    | some c => simp [lists_of, addrs] at ha
  · intro a ha; simp at ha

/-! ## Lemmas: counting records, integer ranges -/

/-- Replacing one list of an online CPU changes the total length by the
difference of the two lengths. -/
theorem sum_range_update (f : Nat → List latency_tracker_event) (c : Nat)
    (l : List latency_tracker_event) :
    ∀ n, c < n →
      ((List.range n).map (fun cpu => (Function.update f c l cpu).length)).sum +
          (f c).length =
        ((List.range n).map (fun cpu => (f cpu).length)).sum + l.length := by
  intro n
  induction n with
  | zero => intro h; omega
  | succ n ih =>
    intro h
    simp only [List.range_succ, List.map_append, List.sum_append, List.map_cons, List.map_nil,
      List.sum_cons, List.sum_nil]
    by_cases hc : c = n
    · subst hc
      have hsame : (List.range c).map (fun cpu => (Function.update f c l cpu).length) =
          (List.range c).map (fun cpu => (f cpu).length) := by
        apply List.map_congr_left
        intro x hx
        have : x ≠ c := by
          have := List.mem_range.mp hx; omega
        simp [Function.update_noteq this]
      rw [hsame]
      simp
      omega
    · have hlt : c < n := by omega
      have := ih hlt
      have hn : n ≠ c := fun h => hc h.symm
      simp only [Function.update_noteq hn]
      omega

/-- The same for `shard_count`. -/
theorem shard_count_update (t : latency_tracker) (nr cpu : Nat)
    (l : List latency_tracker_event) (h : cpu < nr) :
    shard_count nr { t with
        ll_events_per_cpu_free_list :=
          Function.update t.ll_events_per_cpu_free_list cpu l } +
        (t.ll_events_per_cpu_free_list cpu).length =
      shard_count nr t + l.length := by
  unfold shard_count
  exact sum_range_update t.ll_events_per_cpu_free_list cpu l nr h

/-- A wrapped value is a C int. -/
theorem wrap32_range (x : Int) : is_int32 (wrap32 x) := by
  unfold is_int32 wrap32; omega

/-- With counter and ceiling non-negative C ints and `grow_by >= 0`, the new
counter does not wrap and stays within the ceiling. -/
theorem grow_by_no_wrap (cap mx : Int) (hc : 0 ≤ cap) (hc2 : cap < 2147483648)
    (hm : 0 ≤ mx) (hm2 : mx < 2147483648)
    (hg : 0 ≤ min (wrap32 (cap * 2)) (wrap32 (mx - cap))) :
    wrap32 (cap + min (wrap32 (cap * 2)) (wrap32 (mx - cap))) =
      cap + min (wrap32 (cap * 2)) (wrap32 (mx - cap)) ∧
    cap + min (wrap32 (cap * 2)) (wrap32 (mx - cap)) ≤ mx := by
  have hB : wrap32 (mx - cap) = mx - cap := by unfold wrap32; omega
  rw [hB] at hg ⊢
  generalize wrap32 (cap * 2) = A at hg ⊢
  have hle : min A (mx - cap) ≤ mx - cap := min_le_right _ _
  generalize min A (mx - cap) = g at hg hle ⊢
  unfold wrap32
  omega

/-! ## Lemmas: corner cases of destroy and resize -/

/-- With the global list empty `wrapper_freelist_destroy` returns at line 178:
nothing freed, nothing printed, the per-CPU lists as they were. -/
theorem destroy_global_empty (nr_cpus : Nat) (t : latency_tracker)
    (h : t.ll_events_free_list = []) :
    (wrapper_freelist_destroy nr_cpus t).freed = [] ∧
    (wrapper_freelist_destroy nr_cpus t).printed = none ∧
    (wrapper_freelist_destroy nr_cpus t).percpu_released = false ∧
    (wrapper_freelist_destroy nr_cpus t).tracker.ll_events_per_cpu_free_list =
      t.ll_events_per_cpu_free_list := by
  simp [wrapper_freelist_destroy, llist_del_all, h]

/-- With `grow_by <= 0` the loop of `wrapper_resize_work` is skipped and the
call only adds `grow_by` to the counter. -/
theorem resize_nothing_to_add (ok : alloc_oracle) (heap : Nat) (t : latency_tracker)
    (h : grow_by t ≤ 0) :
    wrapper_resize_work ok heap t =
      { increasing_to := wrap32 (t.free_list_nelems + grow_by t),
        adding := grow_by t, success := true, heap := heap,
        tracker := { t with free_list_nelems := wrap32 (t.free_list_nelems + grow_by t) } } := by
  have hn : (grow_by t).toNat = 0 := by omega
  have hd : resize_done ok t = 0 := by
    unfold resize_done; rw [hn]; rfl
  rw [wrapper_resize_work_eq]
  simp [hd, hn, batch_zero, marker_after_zero]

/-! ## Lemmas: what a get returns, what stays checked out -/

/-- The record `wrapper_freelist_get_event` returns was linked in the global list
or in the list of the CPU. -/
theorem get_event_mem (t : latency_tracker) (cpu : Nat) (e : latency_tracker_event)
    (h : (wrapper_freelist_get_event t cpu).1 = some e) :
    e ∈ t.ll_events_free_list ∨ e ∈ t.ll_events_per_cpu_free_list cpu := by
  rcases hs : t.ll_events_per_cpu_free_list cpu with _ | ⟨e1, rest⟩
  · rcases hg : t.ll_events_free_list with _ | ⟨e1, rest⟩
    · rw [get_event_empty t cpu hs hg] at h; simp at h
    · rw [get_event_global t cpu e1 rest hs hg] at h
      simp at h; subst h; simp
  · rw [get_event_shard t cpu e1 rest hs] at h
    simp at h; subst h; simp

/-- The address of the record a get returns was in one of the lists. -/
theorem get_event_addr_mem (t : latency_tracker) (cpu : Nat) (e : latency_tracker_event)
    (h : (wrapper_freelist_get_event t cpu).1 = some e) :
    ∃ k, e.addr ∈ lists_of t k := by
  rcases get_event_mem t cpu e h with hm | hm
  · exact ⟨none, List.mem_map_of_mem _ hm⟩
  · exact ⟨some cpu, List.mem_map_of_mem _ hm⟩

/-- The record a get returns is checked out afterwards. -/
theorem step_get_out (w w1 : world) (cpu : Nat) (e : latency_tracker_event)
    (hg : (wrapper_freelist_get_event w.tracker cpu).1 = some e)
    (hs : step w (action.get cpu) = some w1) : e.addr ∈ w1.out := by
  simp only [step] at hs
  split at hs
  · rcases hget : wrapper_freelist_get_event w.tracker cpu with ⟨_ | e1, t1⟩
    · rw [hget] at hg; simp at hg
    · rw [hget] at hg hs
      simp only [Option.some.injEq] at hg hs
      subst hg; subst hs
      simp
  · exact absurd hs (by simp)

/-- A call other than the put of a record leaves it checked out. -/
theorem out_kept_step (w w1 : world) (a : action) (x : Nat) (hx : x ∈ w.out)
    (hn : no_put_of x [a]) (hs : step w a = some w1) : x ∈ w1.out := by
  cases a with
  | get cpu =>
    simp only [step] at hs
    split at hs
    · rcases hget : wrapper_freelist_get_event w.tracker cpu with ⟨_ | e1, t1⟩
      · rw [hget] at hs
        simp only [Option.some.injEq] at hs
        subst hs; exact hx
      · rw [hget] at hs
        simp only [Option.some.injEq] at hs
        subst hs; exact List.mem_cons_of_mem _ hx
    · exact absurd hs (by simp)
  | put cpu e =>
    simp only [step] at hs
    split at hs
    · simp only [Option.some.injEq] at hs
      subst hs
      have hne : x ≠ e.addr := fun h => hn.1 h.symm
      exact (List.mem_erase_of_ne hne).mpr hx
    · exact absurd hs (by simp)
  | resize ok =>
    simp only [step, Option.some.injEq] at hs
    subst hs; exact hx

/-- A sequence of calls without a put of a record leaves it checked out. -/
theorem out_kept_run (x : Nat) (acts : List action) :
    ∀ (w w1 : world), x ∈ w.out → no_put_of x acts → run w acts = some w1 → x ∈ w1.out := by
  induction acts with
  | nil => intro w w1 hx _ hr; simp [run] at hr; subst hr; exact hx
  | cons a rest ih =>
    intro w w1 hx hn hr
    simp only [run] at hr
    cases hs : step w a with
    | none => rw [hs] at hr; exact absurd hr (by simp)
    | some w2 =>
      rw [hs] at hr
      have hn1 : no_put_of x [a] ∧ no_put_of x rest := by
        cases a <;> simp_all [no_put_of]
      exact ih w2 w1 (out_kept_step w w2 a x hx hn1.1 hs) hn1.2 hr

/-! ## Lemmas: zeroing -/

/-- A `memset` over the full length of a buffer leaves only zero bytes. -/
theorem memset_full (bytes : List Nat) (n : Nat) (h : bytes.length = n) :
    memset bytes n = List.replicate n 0 := by
  subst h
  unfold memset
  rw [Nat.min_self, List.drop_length, List.append_nil]

/-- Recycling keeps the key pointer and clears `key_size` bytes of the buffer. -/
theorem recycled_key (ks ps : Nat) (e : latency_tracker_event) :
    (recycled ks ps e).tkey_key =
      { ptr := e.tkey_key.ptr, bytes := memset e.tkey_key.bytes ks } := by
  unfold recycled
  cases h : e.priv_data <;> simp [h]

/-- Recycling keeps the private-data pointer and clears `priv_data_size` bytes
of the buffer. -/
theorem recycled_priv (ks ps : Nat) (e : latency_tracker_event) :
    (recycled ks ps e).priv_data =
      e.priv_data.map (fun b => { ptr := b.ptr, bytes := memset b.bytes ps }) := by
  unfold recycled
  cases h : e.priv_data <;> simp [h]

/-- Recycling clears the payload. -/
theorem recycled_payload (ks ps : Nat) (e : latency_tracker_event) :
    (recycled ks ps e).payload = 0 := by
  unfold recycled
  cases h : e.priv_data <;> simp [h]

/-- A call other than a put of the address `a` links no record with that
address. -/
theorem only_copy_step (a : Nat) (z : latency_tracker_event) (w w1 : world) (act : action)
    (h : only_copy a z w.tracker) (hh : a < w.heap) (hn : no_put_of a [act])
    (hs : step w act = some w1) : only_copy a z w1.tracker ∧ a < w1.heap := by
  obtain ⟨hg, hp⟩ := h
  cases act with
  | get cpu =>
    simp only [step] at hs
    split at hs
    · rcases hshard : w.tracker.ll_events_per_cpu_free_list cpu with _ | ⟨e, rest⟩
      · rcases hglob : w.tracker.ll_events_free_list with _ | ⟨e, rest⟩
        · rw [get_event_empty _ _ hshard hglob] at hs
          simp only [Option.some.injEq] at hs
          subst hs; exact ⟨⟨hg, hp⟩, hh⟩
        · rw [get_event_global _ _ e rest hshard hglob] at hs
          simp only [Option.some.injEq] at hs
          subst hs
          refine ⟨⟨fun x hx => hg x ?_, hp⟩, hh⟩
          rw [hglob]; exact List.mem_cons_of_mem _ hx
      · rw [get_event_shard _ _ e rest hshard] at hs
        simp only [Option.some.injEq] at hs
        subst hs
        refine ⟨⟨hg, fun c x hx => hp c x ?_⟩, hh⟩
        by_cases hc : c = cpu
        · subst hc
          simp only [Function.update_same] at hx
          rw [hshard]; exact List.mem_cons_of_mem _ hx
        · simp only [Function.update_noteq hc] at hx
          exact hx
    · exact absurd hs (by simp)
  | put cpu e =>
    simp only [step] at hs
    split at hs
    · simp only [Option.some.injEq] at hs
      subst hs
      refine ⟨⟨hg, fun c x hx hxa => ?_⟩, hh⟩
      rw [put_event_eq] at hx
      by_cases hc : c = cpu
      · subst hc
        simp only [Function.update_same] at hx
        rcases List.mem_cons.mp hx with rfl | hx
        · rw [recycled_addr] at hxa
          exact absurd hxa hn.1
        · exact hp c x hx hxa
      · simp only [Function.update_noteq hc] at hx
        exact hp c x hx hxa
    · exact absurd hs (by simp)
  | resize ok =>
    simp only [step, wrapper_resize_work_eq, Option.some.injEq] at hs
    subst hs
    refine ⟨⟨fun x hx hxa => ?_, hp⟩, by simp only; omega⟩
    rcases List.mem_append.mp hx with hb | ho
    · have := (batch_addr_bounds _ _ _ _ x hb).1
      omega
    · exact hg x ho hxa

/-- The same for a sequence of calls. -/
theorem only_copy_run (a : Nat) (z : latency_tracker_event) (acts : List action) :
    ∀ (w w1 : world), only_copy a z w.tracker → a < w.heap → no_put_of a acts →
      run w acts = some w1 → only_copy a z w1.tracker := by
  induction acts with
  | nil => intro w w1 h _ _ hr; simp [run] at hr; subst hr; exact h
  | cons act rest ih =>
    intro w w1 h hh hn hr
    simp only [run] at hr
    cases hs : step w act with
    | none => rw [hs] at hr; exact absurd hr (by simp)
    | some w2 =>
      rw [hs] at hr
      have hn1 : no_put_of a [act] ∧ no_put_of a rest := by
        cases act <;> simp_all [no_put_of]
      obtain ⟨h2, hh2⟩ := only_copy_step a z w w2 act h hh hn1.1 hs
      exact ih w2 w1 h2 hh2 hn1.2 hr

/-- Right after its put, the recycled record is the only linked record with its
address. -/
theorem only_copy_after_put (w w1 : world) (cpu : Nat) (e : latency_tracker_event)
    (hinv : inv w) (hs : step w (action.put cpu e) = some w1) :
    only_copy e.addr (recycled w.tracker.key_size w.tracker.priv_data_size e) w1.tracker ∧
      e.addr < w1.heap := by
  simp only [step] at hs
  split at hs
  · rename_i hg
    simp only [Option.some.injEq] at hs
    subst hs
    have hnot : ∀ k, e.addr ∉ lists_of w.tracker k := fun k hm => hinv.1.2.2.2 k _ hm hg.2
    refine ⟨⟨fun x hx hxa => ?_, fun c x hx hxa => ?_⟩, hinv.2.2 _ hg.2⟩
    · exact absurd (hxa ▸ List.mem_map_of_mem (fun e => e.addr) hx) (hnot none)
    · rw [put_event_eq] at hx
      by_cases hc : c = cpu
      · subst hc
        simp only [Function.update_same] at hx
        rcases List.mem_cons.mp hx with rfl | hx
        · rfl
        · exact absurd (hxa ▸ List.mem_map_of_mem (fun e => e.addr) hx) (hnot (some c))
      · simp only [Function.update_noteq hc] at hx
        exact absurd (hxa ▸ List.mem_map_of_mem (fun e => e.addr) hx) (hnot (some c))
  · exact absurd hs (by simp)

/-- The number of records to add is a C int. -/
theorem grow_by_range (t : latency_tracker) : is_int32 (grow_by t) := by
  unfold grow_by
  have h1 := wrap32_range (t.free_list_nelems * 2)
  have h2 := wrap32_range (t.max_resize - t.free_list_nelems)
  unfold is_int32 at *
  rcases le_total (wrap32 (t.free_list_nelems * 2))
    (wrap32 (t.max_resize - t.free_list_nelems)) with h | h
  · rw [min_eq_left h]; exact h1
  · rw [min_eq_right h]; exact h2

/-! ## Lemmas: the counter and the records -/

/-- One call changes the difference between the number of records and the
counter by the records it strands. -/
theorem count_step (w w1 : world) (a : action)
    (h0 : 0 ≤ w.tracker.free_list_nelems)
    (h1 : w.tracker.free_list_nelems < 2147483648) (h2 : 0 ≤ w.tracker.max_resize)
    (h3 : w.tracker.max_resize < 2147483648) (hcl : growing_call w a = true)
    (hs : step w a = some w1) :
    (pool_count w1 : Int) - w1.tracker.free_list_nelems =
        (pool_count w : Int) - w.tracker.free_list_nelems + stranded_by w a ∧
      0 ≤ w1.tracker.free_list_nelems ∧ w1.tracker.free_list_nelems < 2147483648 ∧
      w1.tracker.max_resize = w.tracker.max_resize := by
  unfold pool_count free_count
  cases a with
  | get cpu =>
    simp only [step] at hs
    simp only [stranded_by]
    split at hs
    · rename_i hcpu
      rcases hshard : w.tracker.ll_events_per_cpu_free_list cpu with _ | ⟨e, rest⟩
      · rcases hglob : w.tracker.ll_events_free_list with _ | ⟨e, rest⟩
        · rw [get_event_empty _ _ hshard hglob] at hs
          simp only [Option.some.injEq] at hs
          subst hs
          rw [hglob]
          exact ⟨by simp, h0, h1, rfl⟩
        · rw [get_event_global _ _ e rest hshard hglob] at hs
          simp only [Option.some.injEq] at hs
          subst hs
          refine ⟨?_, h0, h1, rfl⟩
          have : shard_count w.nr_cpus { w.tracker with ll_events_free_list := rest } =
            shard_count w.nr_cpus w.tracker := rfl
          rw [this]
          simp only [List.length_cons]
          push_cast; omega
      · rw [get_event_shard _ _ e rest hshard] at hs
        simp only [Option.some.injEq] at hs
        subst hs
        refine ⟨?_, h0, h1, rfl⟩
        have := shard_count_update w.tracker w.nr_cpus cpu rest hcpu
        rw [hshard] at this
        simp only [List.length_cons] at this ⊢
        push_cast
        omega
    · exact absurd hs (by simp)
  | put cpu e =>
    simp only [step] at hs
    simp only [stranded_by]
    split at hs
    · rename_i hg
      simp only [Option.some.injEq] at hs
      subst hs
      refine ⟨?_, h0, h1, rfl⟩
      have := shard_count_update w.tracker w.nr_cpus cpu
        (recycled w.tracker.key_size w.tracker.priv_data_size e ::
          w.tracker.ll_events_per_cpu_free_list cpu) hg.1
      have hlen := List.length_erase_of_mem hg.2
      have hpos : 0 < w.out.length := List.length_pos_of_mem hg.2
      simp only [List.length_cons] at this
      rw [put_event_eq]
      simp only
      rw [hlen]
      push_cast
      omega
    · exact absurd hs (by simp)
  | resize ok =>
    simp only [growing_call, decide_eq_true_eq] at hcl
    simp only [step, Option.some.injEq] at hs
    subst hs
    simp only [stranded_by, wrapper_resize_work_eq]
    obtain ⟨hw, hle⟩ := grow_by_no_wrap w.tracker.free_list_nelems w.tracker.max_resize h0 h1
      h2 h3 hcl
    have hsc : ∀ (c : Int) (m : Option Nat) (l : List latency_tracker_event),
        shard_count w.nr_cpus { w.tracker with
          free_list_nelems := c, resize_event := m, ll_events_free_list := l } =
        shard_count w.nr_cpus w.tracker := fun _ _ _ => rfl
    rw [hsc]
    simp only [List.length_append, batch_length]
    have hgg : grow_by w.tracker = min (wrap32 (w.tracker.free_list_nelems * 2))
      (wrap32 (w.tracker.max_resize - w.tracker.free_list_nelems)) := rfl
    rw [← hgg] at hw hle
    by_cases hd : resize_done ok w.tracker = (grow_by w.tracker).toNat
    · simp only [hd, if_true, decide_True]
      rw [hw]
      have : (((grow_by w.tracker).toNat : Nat) : Int) = grow_by w.tracker :=
        Int.toNat_of_nonneg hcl
      refine ⟨?_, by omega, by omega, trivial⟩
      push_cast
      rw [this]
      omega
    · simp only [hd, if_false, decide_False]
      refine ⟨?_, h0, h1, trivial⟩
      push_cast
      omega

/-- A sequence of calls changes the difference between the number of records
and the counter by the records it strands. -/
theorem count_run (acts : List action) :
    ∀ (w w1 : world), 0 ≤ w.tracker.free_list_nelems →
      w.tracker.free_list_nelems < 2147483648 →
      0 ≤ w.tracker.max_resize → w.tracker.max_resize < 2147483648 →
      growing_run w acts = true → run w acts = some w1 →
      (pool_count w1 : Int) - w1.tracker.free_list_nelems =
        (pool_count w : Int) - w.tracker.free_list_nelems + stranded w acts := by
  induction acts with
  | nil => intro w w1 _ _ _ _ _ hr; simp [run] at hr; subst hr; simp [stranded]
  | cons a rest ih =>
    intro w w1 h0 h1 h2 h3 hcl hr
    simp only [run] at hr
    simp only [growing_run, Bool.and_eq_true] at hcl
    simp only [stranded]
    cases hs : step w a with
    | none => rw [hs] at hr; exact absurd hr (by simp)
    | some w2 =>
      rw [hs] at hr hcl
      obtain ⟨hc2, h02, h12, hm2⟩ := count_step w w2 a h0 h1 h2 h3 hcl.1 hs
      have := ih w2 w1 h02 h12 (hm2 ▸ h2) (hm2 ▸ h3) hcl.2 hr
      simp only
      push_cast
      omega

/-- After a successful init with `0 <= max_events` the pool has `max_events`
records and the counter says so. -/
theorem count_boot (nr_cpus heap : Nat) (t : latency_tracker) (pok : Bool)
    (ok : alloc_oracle) (N : Int) (w0 : world) (hN : 0 ≤ N)
    (hb : boot nr_cpus heap t pok ok N = some w0) :
    (pool_count w0 : Int) = N ∧ w0.tracker.free_list_nelems = N ∧
      w0.tracker.max_resize = t.max_resize := by
  obtain ⟨_, _, rfl⟩ := boot_eq _ _ _ _ _ _ _ hb
  refine ⟨?_, rfl, rfl⟩
  unfold pool_count free_count shard_count
  simp [batch_length, Int.toNat_of_nonneg hN]

/-! ## Lemmas: a resize that fails -/

/-- A loop stops at the latest where an iteration fails. -/
theorem good_run_le_fail (ok : alloc_oracle) (ps n i k : Nat)
    (hf : slot_ok ok ps (i + k) = false) : good_run ok ps n i ≤ k := by
  by_contra hlt
  have := good_run_ok ok ps n i (i + k) (by omega) (by omega)
  rw [hf] at this
  exact absurd this (by simp)

/-- A resize that meets a failing allocation prints "resize error", links the
records completed before and writes neither the counter nor a per-CPU list. -/
theorem resize_failed_eq (ok : alloc_oracle) (heap : Nat) (t : latency_tracker)
    (h : resize_done ok t ≠ (grow_by t).toNat) :
    wrapper_resize_work ok heap t =
      { increasing_to := wrap32 (t.free_list_nelems + grow_by t),
        adding := grow_by t,
        success := false,
        heap := heap + resize_done ok t * stride t.priv_data_size +
          spill ok (0 + resize_done ok t),
        tracker :=
          { t with
            resize_event :=
              marker_after true (grow_by t) t.priv_data_size 0 (resize_done ok t) heap
                t.resize_event,
            ll_events_free_list :=
              batch t.key_size t.priv_data_size heap (resize_done ok t) ++
                t.ll_events_free_list } } := by
  rw [wrapper_resize_work_eq]
  simp [h]

/-- The batch index of a failing allocation below `grow_by` keeps the resize
from completing. -/
theorem resize_done_lt (ok : alloc_oracle) (t : latency_tracker) (k : Nat)
    (hk : k < (grow_by t).toNat) (hf : slot_ok ok t.priv_data_size k = false) :
    resize_done ok t ≤ k ∧ resize_done ok t ≠ (grow_by t).toNat := by
  have h := good_run_le_fail ok t.priv_data_size (grow_by t).toNat 0 k (by simpa using hf)
  unfold resize_done
  exact ⟨h, by omega⟩

/-- When the first failing allocation has batch index `k`, the resize completes
exactly `k` records. -/
theorem resize_done_first_fail (ok : alloc_oracle) (t : latency_tracker) (k : Nat)
    (hk : k < (grow_by t).toNat)
    (hprev : ∀ j, j < k → slot_ok ok t.priv_data_size j = true)
    (hf : slot_ok ok t.priv_data_size k = false) : resize_done ok t = k := by
  unfold resize_done
  exact good_run_first_fail ok _ _ 0 k hk (fun j _ h2 => hprev j (by omega))
    (by simpa using hf)

/-! ## Lemmas: a completed batch, runs of gets -/

/-- The record at position `p` of a batch is the one built by the iteration
with offset `k - 1 - p`. -/
theorem batch_get (ks ps h k p : Nat) (hp : p < k) :
    (batch ks ps h k)[p]? = some (new_event ks ps (h + (k - 1 - p) * stride ps)) := by
  unfold batch
  rw [List.getElem?_reverse (by simpa using hp)]
  simp only [List.length_map, List.length_range, List.getElem?_map]
  rw [List.getElem?_range (by omega)]
  rfl

/-- Truncating and flooring division by two agree on a positive C int. -/
theorem tdiv_two_toNat (g : Int) (hg : 0 ≤ g) : (Int.tdiv g 2).toNat = g.toNat / 2 := by
  rw [Int.tdiv_eq_ediv hg (by decide)]
  omega

/-- A loop that completes all its `max_events >= 1` iterations from index 0
leaves the marker on the record with index `max_events / 2`. -/
theorem marker_after_full (M : Int) (ps heap : Nat) (old : Option Nat) (hM : 0 < M) :
    marker_after true M ps 0 M.toNat heap old = some (heap + M.toNat / 2 * stride ps) := by
  unfold marker_after
  have h2 := tdiv_two_toNat M (le_of_lt hM)
  have h3 : Int.tdiv M 2 = M / 2 := Int.tdiv_eq_ediv (le_of_lt hM) (by decide)
  rw [if_pos]
  · rw [h2]; simp
  · refine ⟨rfl, ?_, ?_⟩
    · rw [h3]; push_cast; omega
    · rw [h3]; push_cast; omega

/-- A loop with the marker assignment switched off leaves the marker alone. -/
theorem marker_after_off (M : Int) (ps i k heap : Nat) (old : Option Nat) :
    marker_after false M ps i k heap old = old := by
  unfold marker_after
  simp

/-- A resize with `grow_by > 0` whose allocations all succeed, in closed
form. -/
theorem resize_ok_eq (ok : alloc_oracle) (heap : Nat) (t : latency_tracker)
    (hg : 0 < grow_by t)
    (hok : ∀ i, i < (grow_by t).toNat → slot_ok ok t.priv_data_size i = true) :
    wrapper_resize_work ok heap t =
      { increasing_to := wrap32 (t.free_list_nelems + grow_by t),
        adding := grow_by t,
        success := true,
        heap := heap + (grow_by t).toNat * stride t.priv_data_size,
        tracker :=
          { t with
            free_list_nelems := wrap32 (t.free_list_nelems + grow_by t),
            resize_event :=
              some (heap + (grow_by t).toNat / 2 * stride t.priv_data_size),
            ll_events_free_list :=
              batch t.key_size t.priv_data_size heap (grow_by t).toNat ++
                t.ll_events_free_list } } := by
  have hd : resize_done ok t = (grow_by t).toNat := by
    unfold resize_done
    exact good_run_all ok _ _ 0 (fun j _ h2 => hok j (by omega))
  rw [wrapper_resize_work_eq]
  simp [hd, marker_after_full _ _ _ _ hg]

/-- As many gets as the global list has records in front of `rest`, on a CPU
whose own list is empty, return these records in list order. -/
theorem get_events_global (cpu : Nat) (rest : List latency_tracker_event) :
    ∀ (l : List latency_tracker_event) (t : latency_tracker),
      t.ll_events_per_cpu_free_list cpu = [] →
      get_events { t with ll_events_free_list := l ++ rest } cpu l.length =
        (l.map some, { t with ll_events_free_list := rest }) := by
  intro l
  induction l with
  | nil => intro t _; simp [get_events]
  | cons e l ih =>
    intro t hs
    simp only [List.length_cons, get_events]
    have hget := get_event_global { t with ll_events_free_list := e :: (l ++ rest) } cpu e
      (l ++ rest) hs rfl
    simp only [List.cons_append]
    rw [hget]
    have := ih t hs
    simp only at this ⊢
    rw [this]
    simp

/-- Gets on a CPU whose own list and the global list are empty all return
NULL. -/
theorem get_events_none (cpu : Nat) (t : latency_tracker)
    (hs : t.ll_events_per_cpu_free_list cpu = []) (hg : t.ll_events_free_list = []) :
    ∀ k, get_events t cpu k = (List.replicate k none, t) := by
  intro k
  induction k with
  | zero => simp [get_events]
  | succ k ih =>
    simp only [get_events]
    rw [get_event_empty t cpu hs hg]
    simp only [ih]
    simp [List.replicate_succ]

/-- A run of `a + b` gets is a run of `a` gets followed by a run of `b`. -/
theorem get_events_add (cpu : Nat) (b : Nat) :
    ∀ (a : Nat) (t : latency_tracker),
      get_events t cpu (a + b) =
        ((get_events t cpu a).1 ++ (get_events (get_events t cpu a).2 cpu b).1,
          (get_events (get_events t cpu a).2 cpu b).2) := by
  intro a
  induction a with
  | zero => intro t; simp [get_events]
  | succ a ih =>
    intro t
    have : a + 1 + b = (a + b) + 1 := by omega
    rw [this]
    simp only [get_events]
    rw [ih]
    simp

/-! ## Lemmas: destroy -/

/-- The freeing loop counts and frees every record of the chain. -/
theorem free_chain_eq (list : List latency_tracker_event) :
    ∀ (cnt : Nat) (freed : List latency_tracker_event),
      free_chain list cnt freed = (cnt + list.length, freed ++ list) := by
  induction list with
  | nil => intro cnt freed; simp [free_chain]
  | cons e n ih =>
    intro cnt freed
    rw [free_chain, ih]
    simp [Nat.add_assoc, Nat.add_comm 1]

/-- One iteration of `free_per_cpu_llist` frees and counts the list of its CPU
and leaves it empty. -/
theorem free_one_cpu_eq (total : Nat) (freed : List latency_tracker_event)
    (t : latency_tracker) (cpu : Nat) :
    free_one_cpu (total, freed, t) cpu =
      (total + (t.ll_events_per_cpu_free_list cpu).length,
        freed ++ t.ll_events_per_cpu_free_list cpu,
        { t with
          ll_events_per_cpu_free_list :=
            Function.update t.ll_events_per_cpu_free_list cpu [] }) := by
  unfold free_one_cpu llist_del_all
  rcases h : t.ll_events_per_cpu_free_list cpu with _ | ⟨e, rest⟩
  · simp [h]
  · simp [free_chain_eq, h]

/-- The per-CPU lists after the first `n` CPUs have been emptied. -/
theorem free_cpus_fold (n : Nat) :
    ∀ (total : Nat) (freed : List latency_tracker_event) (t : latency_tracker),
      (List.range n).foldl free_one_cpu (total, freed, t) =
        (total + shard_count n t,
          freed ++ (List.range n).flatMap t.ll_events_per_cpu_free_list,
          { t with
            ll_events_per_cpu_free_list :=
              fun c => if c < n then [] else t.ll_events_per_cpu_free_list c }) := by
  induction n with
  | zero =>
    intro total freed t
    simp [shard_count]
  | succ n ih =>
    intro total freed t
    rw [List.range_succ, List.foldl_append, ih]
    simp only [List.foldl_cons, List.foldl_nil]
    rw [free_one_cpu_eq]
    simp only [lt_irrefl, if_false]
    refine Prod.ext ?_ (Prod.ext ?_ ?_)
    · simp only [shard_count, List.range_succ, List.map_append, List.sum_append, List.map_cons,
        List.map_nil, List.sum_cons, List.sum_nil]
      omega
    · simp [List.flatMap_append, List.range_succ]
    · simp only
      congr 1
      funext c
      by_cases hc : c = n
      · subst hc; simp
      · rw [Function.update_noteq hc]
        by_cases hlt : c < n
        · have : c < n + 1 := by omega
          simp [hlt, this]
        · have : ¬ c < n + 1 := by omega
          simp [hlt, this]

/-- What `wrapper_freelist_destroy` does when the global list is not empty, in
closed form. -/
theorem destroy_eq (nr_cpus : Nat) (t : latency_tracker) (h : t.ll_events_free_list ≠ []) :
    wrapper_freelist_destroy nr_cpus t =
      { freed := t.ll_events_free_list ++
          (List.range nr_cpus).flatMap t.ll_events_per_cpu_free_list,
        printed := some (t.ll_events_free_list.length + shard_count nr_cpus t),
        percpu_released := true,
        tracker :=
          { t with
            ll_events_free_list := [],
            ll_events_per_cpu_free_list :=
              fun c => if c < nr_cpus then [] else t.ll_events_per_cpu_free_list c } } := by
  unfold wrapper_freelist_destroy llist_del_all free_per_cpu_llist
  have hne : t.ll_events_free_list.isEmpty = false := by
    cases hl : t.ll_events_free_list with
    | nil => exact absurd hl h
    | cons _ _ => rfl
  simp only [hne, free_chain_eq, free_cpus_fold]
  simp [shard_count]

/-- The number of records in the per-CPU lists of the online CPUs, as the
length of their concatenation. -/
theorem length_flatMap_shards (nr_cpus : Nat) (t : latency_tracker) :
    ((List.range nr_cpus).flatMap t.ll_events_per_cpu_free_list).length =
      shard_count nr_cpus t := by
  unfold shard_count
  induction nr_cpus with
  | zero => simp
  | succ n ih =>
    simp only [List.range_succ, List.flatMap_append, List.length_append, List.map_append,
      List.sum_append, ih]
    simp

/-! ## Claims -/

/-- Claim C1 (teardown accounting, P7), evaluated where the code departs from
it. One CPU, `wrapper_freelist_init` with `max_events = 1`, then one get and
one put on CPU 0: `free_list_nelems` is 1, no record is checked out, and the
one free record sits in the per-CPU list. `wrapper_freelist_destroy` finds the
global list empty and returns at line 178: it frees no record, prints no
count and leaves the record linked, where the claim asks for one record freed
and counted. -/
theorem destroy_skips_per_cpu_lists_when_global_list_empty :
    ∃ w0 w,
      boot 1 100 (blank 8 0 0) true all_ok 1 = some w0 ∧
      run w0 [action.get 0, action.put 0 { new_event 8 0 100 with payload := 5 }] = some w ∧
      w.tracker.free_list_nelems = 1 ∧ w.out = [] ∧
      w.tracker.ll_events_free_list = [] ∧
      w.tracker.ll_events_per_cpu_free_list 0 = [new_event 8 0 100] ∧
      (wrapper_freelist_destroy 1 w.tracker).freed = [] ∧
      (wrapper_freelist_destroy 1 w.tracker).printed = none ∧
      (wrapper_freelist_destroy 1 w.tracker).tracker.ll_events_per_cpu_free_list 0 =
        [new_event 8 0 100] := by
  refine ⟨_, _, rfl, rfl, ?_, ?_, ?_, ?_, ?_, ?_, ?_⟩ <;> decide

/-- Claim C2 (conservation, P1) does not hold as stated. After
`wrapper_freelist_init` with `max_events = 1` and `max_resize = 16`, a
`wrapper_resize_work` whose second record cannot be allocated has linked its
first record and left `free_list_nelems` alone: two free records, none
checked out, counter 1. -/
theorem conservation_fails_after_failed_resize :
    ∃ w0 w,
      boot 1 100 (blank 8 0 16) true all_ok 1 = some w0 ∧
      run w0 [action.resize (fail_at 1 alloc_site.event)] = some w ∧
      free_count 1 w.tracker = 2 ∧ w.out = [] ∧ w.tracker.free_list_nelems = 1 ∧
      ¬ conserved w := by
  refine ⟨_, _, rfl, rfl, ?_, ?_, ?_, ?_⟩ <;> decide

/-- Claim C2 as amended. Start from a successful `wrapper_freelist_init` with
`0 <= max_events` and `0 <= max_resize` (both C ints) and make any sequence of
gets, puts of checked-out records and resizes, every resize being called with
`grow_by >= 0`. Then the records in the per-CPU lists, in the global list and
checked out number `free_list_nelems` plus the records that failing resizes
linked before they gave up; with no such record the count is exactly
`free_list_nelems`. -/
theorem conservation_up_to_stranded_records (nr_cpus heap : Nat) (t : latency_tracker)
    (pok : Bool) (ok : alloc_oracle) (N : Int) (acts : List action) (w0 w : world)
    (hN : 0 ≤ N) (hN2 : N < 2147483648)
    (hm : 0 ≤ t.max_resize) (hm2 : t.max_resize < 2147483648)
    (hb : boot nr_cpus heap t pok ok N = some w0)
    (hg : growing_run w0 acts = true)
    (hr : run w0 acts = some w) :
    ((shard_count w.nr_cpus w.tracker + w.tracker.ll_events_free_list.length +
        w.out.length : Nat) : Int) = w.tracker.free_list_nelems + stranded w0 acts ∧
    (stranded w0 acts = 0 → conserved w) := by
  obtain ⟨h0, hcap, hmax⟩ := count_boot nr_cpus heap t pok ok N w0 hN hb
  have := count_run acts w0 w (by rw [hcap]; exact hN) (by rw [hcap]; exact hN2)
    (by rw [hmax]; exact hm) (by rw [hmax]; exact hm2) hg hr
  rw [h0, hcap] at this
  unfold pool_count free_count at this
  refine ⟨by omega, fun hz => ?_⟩
  unfold conserved free_count
  rw [hz] at this
  push_cast at this ⊢
  omega

/-- Claim C2 as amended, on a run of five calls with one failing and one
successful resize: counter 12, three stranded records, fifteen records in
all. -/
theorem conservation_up_to_stranded_records_witness :
    ∃ w0 w,
      boot 2 100 (blank 8 0 64) true all_ok 4 = some w0 ∧
      run w0 [action.get 0, action.resize (fail_at 3 alloc_site.key),
        action.put 1 (new_event 8 0 106), action.resize all_ok, action.get 1] = some w ∧
      stranded w0 [action.get 0, action.resize (fail_at 3 alloc_site.key),
        action.put 1 (new_event 8 0 106), action.resize all_ok, action.get 1] = 3 ∧
      w.tracker.free_list_nelems = 12 ∧
      ((shard_count w.nr_cpus w.tracker + w.tracker.ll_events_free_list.length +
        w.out.length : Nat) : Int) = 12 + 3 :=
  ⟨_, _, rfl, rfl, by decide, by decide,
    (conservation_up_to_stranded_records 2 100 (blank 8 0 64) true all_ok 4
      [action.get 0, action.resize (fail_at 3 alloc_site.key),
        action.put 1 (new_event 8 0 106), action.resize all_ok, action.get 1]
      _ _ (by decide) (by decide) (by decide) (by decide) rfl (by decide) rfl).1⟩

/-- Claim C3 (init is all-or-nothing) does not hold as stated. With
`max_events = 2` and the key buffer of the record with index 1 failing to
allocate, `wrapper_freelist_init` returns -1 and the record with index 0 is
still linked in the global list. -/
theorem init_failure_leaves_records_linked :
    (wrapper_freelist_init true (fail_at 1 alloc_site.key) 100 (blank 8 0 0) 2).ret = -1 ∧
    (wrapper_freelist_init true (fail_at 1 alloc_site.key) 100
      (blank 8 0 0) 2).tracker.ll_events_free_list = [new_event 8 0 100] := by
  constructor <;> decide

/-- Claim C3 as amended. When the first allocation to fail in
`wrapper_freelist_init` belongs to the record with index `k`,
`0 <= k < max_events` (its record, key buffer or private-data buffer), init
returns -1, every per-CPU list is empty, `free_list_nelems` is not written,
and the global list holds exactly the `k` records completed before, the last
completed first: nothing is freed. -/
theorem init_failure_keeps_completed_records (ok : alloc_oracle) (heap : Nat)
    (t : latency_tracker) (max_events : Int) (k : Nat)
    (hk : (k : Int) < max_events)
    (hprev : ∀ j, j < k → slot_ok ok t.priv_data_size j = true)
    (hfail : slot_ok ok t.priv_data_size k = false) :
    (wrapper_freelist_init true ok heap t max_events).ret = -1 ∧
    (wrapper_freelist_init true ok heap t max_events).tracker.ll_events_free_list =
      batch t.key_size t.priv_data_size heap k ∧
    (wrapper_freelist_init true ok heap t max_events).tracker.ll_events_free_list.length = k ∧
    (∀ cpu, (wrapper_freelist_init true ok heap t
      max_events).tracker.ll_events_per_cpu_free_list cpu = []) ∧
    (wrapper_freelist_init true ok heap t max_events).tracker.free_list_nelems =
      t.free_list_nelems := by
  have hkn : k < max_events.toNat := by omega
  have hd : init_done ok t max_events = k := by
    unfold init_done
    exact good_run_first_fail ok _ _ 0 k hkn (fun j _ h2 => hprev j (by omega))
      (by simpa using hfail)
  have hne : ¬ (k = max_events.toNat) := by omega
  rw [wrapper_freelist_init_eq]
  simp [hd, hne, batch_length]

/-- Claim C3 as amended, for five records to allocate and the private-data
buffer of the record with index 2 failing: two records stay linked. -/
theorem init_failure_keeps_completed_records_witness :
    (wrapper_freelist_init true (fail_at 2 alloc_site.priv) 100 (blank 8 4 0) 5).ret = -1 ∧
    (wrapper_freelist_init true (fail_at 2 alloc_site.priv) 100
      (blank 8 4 0) 5).tracker.ll_events_free_list.length = 2 :=
  have h := init_failure_keeps_completed_records (fail_at 2 alloc_site.priv) 100 (blank 8 4 0)
    5 2 (by decide) (by decide) (by decide)
  ⟨h.1, h.2.2.1⟩

/-- Claim C4 (resize with nothing to grow is a no-op), evaluated where the code
departs from it. A pool of 4 records with `max_resize = 0` has
`grow_by = min(8, 0 - 4) = -4`; `wrapper_resize_work` skips the loop, keeps the
4 records linked, prints "adding -4" and still executes line 125, which takes
`free_list_nelems` from 4 to 0, where the claim asks for an unchanged
capacity. -/
theorem resize_with_growth_disabled_drops_capacity :
    ∃ w0,
      boot 1 100 (blank 8 0 0) true all_ok 4 = some w0 ∧
      w0.tracker.free_list_nelems = 4 ∧ w0.tracker.max_resize = 0 ∧
      grow_by w0.tracker = -4 ∧
      (wrapper_resize_work all_ok w0.heap w0.tracker).adding = -4 ∧
      (wrapper_resize_work all_ok w0.heap w0.tracker).tracker.free_list_nelems = 0 ∧
      (wrapper_resize_work all_ok w0.heap w0.tracker).tracker.ll_events_free_list.length = 4 := by
  refine ⟨_, rfl, ?_, ?_, ?_, ?_, ?_, ?_⟩ <;> decide

/-- Claim C5 (acquire order of lookup). On CPU `cpu`,
`wrapper_freelist_get_event` returns the head of the per-CPU list of `cpu` when
that list is not empty and unlinks it there; otherwise the head of the global
list when that is not empty and unlinks it there; it returns `none` (NULL)
exactly when both are empty, and then changes nothing. The per-CPU lists of
the other CPUs are never touched. -/
theorem get_event_lookup_order (t : latency_tracker) (cpu : Nat) :
    (∀ e rest, t.ll_events_per_cpu_free_list cpu = e :: rest →
      wrapper_freelist_get_event t cpu =
        (some e, { t with
          ll_events_per_cpu_free_list :=
            Function.update t.ll_events_per_cpu_free_list cpu rest })) ∧
    (∀ e rest, t.ll_events_per_cpu_free_list cpu = [] → t.ll_events_free_list = e :: rest →
      wrapper_freelist_get_event t cpu = (some e, { t with ll_events_free_list := rest })) ∧
    ((wrapper_freelist_get_event t cpu).1 = none ↔
      t.ll_events_per_cpu_free_list cpu = [] ∧ t.ll_events_free_list = []) ∧
    ((wrapper_freelist_get_event t cpu).1 = none → (wrapper_freelist_get_event t cpu).2 = t) ∧
    (∀ c, c ≠ cpu →
      (wrapper_freelist_get_event t cpu).2.ll_events_per_cpu_free_list c =
        t.ll_events_per_cpu_free_list c) := by
  refine ⟨fun e rest h => get_event_shard t cpu e rest h,
    fun e rest h1 h2 => get_event_global t cpu e rest h1 h2, ?_, ?_, ?_⟩
  · rcases hs : t.ll_events_per_cpu_free_list cpu with _ | ⟨e, rest⟩
    · rcases hg : t.ll_events_free_list with _ | ⟨e, rest⟩
      · simp [get_event_empty t cpu hs hg]
      · simp [get_event_global t cpu e rest hs hg]
    · simp [get_event_shard t cpu e rest hs]
  · rcases hs : t.ll_events_per_cpu_free_list cpu with _ | ⟨e, rest⟩
    · rcases hg : t.ll_events_free_list with _ | ⟨e, rest⟩
      · simp [get_event_empty t cpu hs hg]
      · simp [get_event_global t cpu e rest hs hg]
    · simp [get_event_shard t cpu e rest hs]
  · intro c hc
    rcases hs : t.ll_events_per_cpu_free_list cpu with _ | ⟨e, rest⟩
    · rcases hg : t.ll_events_free_list with _ | ⟨e, rest⟩
      · simp [get_event_empty t cpu hs hg]
      · simp [get_event_global t cpu e rest hs hg]
    · simp [get_event_shard t cpu e rest hs, Function.update_noteq hc]

/-- Claim C6 (LIFO locality, P3). Putting the records `s1, ..., sk` back in that
order on one CPU and then calling `wrapper_freelist_get_event` `k` times on
that CPU returns `sk, ..., s1` in that order, each as the put left it, and
restores the tracker, whatever the global list holds. -/
theorem lifo_on_one_cpu (t : latency_tracker) (cpu : Nat) (es : List latency_tracker_event) :
    get_events (put_events t cpu es) cpu es.length =
      (es.reverse.map (fun e => some (recycled t.key_size t.priv_data_size e)), t) ∧
    (get_events (put_events t cpu es) cpu es.length).1.map (Option.map (fun e => e.addr)) =
      es.reverse.map (fun e => some e.addr) := by
  have h : get_events (put_events t cpu es) cpu es.length =
      (es.reverse.map (fun e => some (recycled t.key_size t.priv_data_size e)), t) := by
    rw [put_events_eq]
    have := get_events_shard t cpu (t.ll_events_per_cpu_free_list cpu)
      ((es.map (recycled t.key_size t.priv_data_size)).reverse)
    simp only [List.length_reverse, List.length_map] at this
    rw [this]
    simp only [Function.update_eq_self, List.map_reverse, List.map_map]
    cases t
    rfl
  refine ⟨h, ?_⟩
  rw [h]
  simp [List.map_map, Function.comp_def, recycled_addr]

/-- Claim C7 (zeroing, P4). In a pool reached from a successful init, take a
record `e` whose key buffer has `key_size` bytes and whose private-data
buffer, if any, has `priv_data_size` bytes, with arbitrary contents. The
record `wrapper_freelist_put_event` links has the address of `e`, the same key
and private-data pointers, `key_size` zero bytes in the key buffer and
`priv_data_size` zero bytes in the private-data buffer; it becomes the head of
the per-CPU list, a get on that CPU returns it at once, and whatever calls
follow the put of the checked-out `e`, short of another put of it, a get that
returns the record with the address of `e` returns it in that zeroed state. -/
theorem put_event_zeroes_buffers (nr_cpus heap : Nat) (t : latency_tracker) (pok : Bool)
    (ok : alloc_oracle) (N : Int) (acts : List action) (w0 w : world)
    (cpu : Nat) (e : latency_tracker_event)
    (hb : boot nr_cpus heap t pok ok N = some w0) (hr : run w0 acts = some w)
    (hkey : e.tkey_key.bytes.length = w.tracker.key_size)
    (hpriv : ∀ b, e.priv_data = some b → b.bytes.length = w.tracker.priv_data_size) :
    (recycled w.tracker.key_size w.tracker.priv_data_size e).addr = e.addr ∧
    (recycled w.tracker.key_size w.tracker.priv_data_size e).tkey_key =
      { ptr := e.tkey_key.ptr, bytes := List.replicate w.tracker.key_size 0 } ∧
    (recycled w.tracker.key_size w.tracker.priv_data_size e).priv_data =
      e.priv_data.map
        (fun b => { ptr := b.ptr, bytes := List.replicate w.tracker.priv_data_size 0 }) ∧
    (wrapper_freelist_put_event w.tracker cpu e).ll_events_per_cpu_free_list cpu =
      recycled w.tracker.key_size w.tracker.priv_data_size e ::
        w.tracker.ll_events_per_cpu_free_list cpu ∧
    (wrapper_freelist_get_event (wrapper_freelist_put_event w.tracker cpu e) cpu).1 =
      some (recycled w.tracker.key_size w.tracker.priv_data_size e) ∧
    (∀ (w1 w2 : world) (acts2 : List action) (cpu2 : Nat) (e2 : latency_tracker_event),
      step w (action.put cpu e) = some w1 →
      no_put_of e.addr acts2 →
      run w1 acts2 = some w2 →
      (wrapper_freelist_get_event w2.tracker cpu2).1 = some e2 →
      e2.addr = e.addr →
      e2 = recycled w.tracker.key_size w.tracker.priv_data_size e) := by
  have hinv : inv w := inv_run acts w0 w (inv_boot _ _ _ _ _ _ _ hb) hr
  have hshard : (wrapper_freelist_put_event w.tracker cpu e).ll_events_per_cpu_free_list cpu =
      recycled w.tracker.key_size w.tracker.priv_data_size e ::
        w.tracker.ll_events_per_cpu_free_list cpu := by
    rw [put_event_eq]; simp
  refine ⟨recycled_addr _ _ _, ?_, ?_, hshard, ?_, ?_⟩
  · rw [recycled_key, memset_full _ _ hkey]
  · rw [recycled_priv]
    cases hp : e.priv_data with
    | none => rfl
    | some b => simp [memset_full _ _ (hpriv b hp)]
  · rw [get_event_shard _ cpu _ _ hshard]
  · intro w1 w2 acts2 cpu2 e2 hs hn hr2 hg hea
    obtain ⟨hoc, hlt⟩ := only_copy_after_put w w1 cpu e hinv hs
    have hoc2 := only_copy_run e.addr _ acts2 w1 w2 hoc hlt hn hr2
    rcases get_event_mem w2.tracker cpu2 e2 hg with hm | hm
    · exact hoc2.1 e2 hm hea
    · exact hoc2.2 cpu2 e2 hm hea

/-- Claim C7 on a pool of one record with a two-byte key and a one-byte
private-data buffer: the key bytes 5, 6 are zero after the put and the key
pointer is unchanged. -/
theorem put_event_zeroes_buffers_witness :
    ∃ w0 w,
      boot 1 100 (blank 2 1 0) true all_ok 1 = some w0 ∧
      run w0 [action.get 0] = some w ∧
      (recycled w.tracker.key_size w.tracker.priv_data_size
        { addr := 100, payload := 77, priv_data := some { ptr := 102, bytes := [9] },
          tkey_key := { ptr := 101, bytes := [5, 6] } }).tkey_key =
        { ptr := 101, bytes := List.replicate w.tracker.key_size 0 } :=
  ⟨_, _, rfl, rfl,
    (put_event_zeroes_buffers 1 100 (blank 2 1 0) true all_ok 1 [action.get 0] _ _ 0
      { addr := 100, payload := 77, priv_data := some { ptr := 102, bytes := [9] },
        tkey_key := { ptr := 101, bytes := [5, 6] } }
      rfl rfl (by decide) (by decide)).2.1⟩

/-- Claim C8 (exactly-one-list membership, P2). In every state reached from a
successful init by gets, puts of checked-out records and resizes, whatever
their allocation outcomes, the global list and every per-CPU list are
duplicate-free, pairwise disjoint, and disjoint from the checked-out records;
and a get never returns a record that an earlier get returned and that was not
put back in between. -/
theorem every_record_in_exactly_one_place (nr_cpus heap : Nat) (t : latency_tracker)
    (pok : Bool) (ok : alloc_oracle) (N : Int) (acts : List action) (w0 w : world)
    (hb : boot nr_cpus heap t pok ok N = some w0) (hr : run w0 acts = some w) :
    separated w ∧
    (∀ (cpu1 cpu2 : Nat) (e1 e2 : latency_tracker_event) (w1 w2 : world)
        (acts2 : List action),
      (wrapper_freelist_get_event w.tracker cpu1).1 = some e1 →
      step w (action.get cpu1) = some w1 →
      no_put_of e1.addr acts2 →
      run w1 acts2 = some w2 →
      (wrapper_freelist_get_event w2.tracker cpu2).1 = some e2 →
      e2.addr ≠ e1.addr) := by
  have hinv : inv w := inv_run acts w0 w (inv_boot _ _ _ _ _ _ _ hb) hr
  refine ⟨separated_of_sep w hinv.1, ?_⟩
  intro cpu1 cpu2 e1 e2 w1 w2 acts2 hg1 hs1 hn hr2 hg2 heq
  have hinv2 : inv w2 := inv_run acts2 w1 w2 (inv_step w w1 _ hinv hs1) hr2
  have hout : e1.addr ∈ w2.out :=
    out_kept_run e1.addr acts2 w1 w2 (step_get_out w w1 cpu1 e1 hg1 hs1) hn hr2
  obtain ⟨k, hk⟩ := get_event_addr_mem w2.tracker cpu2 e2 hg2
  exact hinv2.1.2.2.2 k e2.addr hk (heq ▸ hout)

/-- Claim C8 on a two-CPU run with two gets, a put and a failing resize. -/
theorem every_record_in_exactly_one_place_witness :
    ∃ w0 w,
      boot 2 100 (blank 8 0 16) true all_ok 2 = some w0 ∧
      run w0 [action.get 0, action.get 1, action.put 1 (new_event 8 0 102),
        action.resize (fail_at 1 alloc_site.key)] = some w ∧
      separated w :=
  ⟨_, _, rfl, rfl,
    (every_record_in_exactly_one_place 2 100 (blank 8 0 16) true all_ok 2
      [action.get 0, action.get 1, action.put 1 (new_event 8 0 102),
        action.resize (fail_at 1 alloc_site.key)] _ _ rfl rfl).1⟩

/-- Claim C9 (growth bound, P5). With `0 <= free_list_nelems` and
`0 <= max_resize` as C ints, and `free_list_nelems * 2` wrapping modulo 2^32,
`wrapper_resize_work` never takes the counter past `max_resize`: when the
counter after the call is greater than before, it is at most `max_resize`,
whatever the allocation outcomes. -/
theorem resize_never_grows_past_max_resize (ok : alloc_oracle) (heap : Nat)
    (t : latency_tracker)
    (hc : 0 ≤ t.free_list_nelems) (hc2 : t.free_list_nelems < 2147483648)
    (hm : 0 ≤ t.max_resize) (hm2 : t.max_resize < 2147483648)
    (hgrow : t.free_list_nelems < (wrapper_resize_work ok heap t).tracker.free_list_nelems) :
    (wrapper_resize_work ok heap t).tracker.free_list_nelems ≤ t.max_resize := by
  rw [wrapper_resize_work_eq] at hgrow ⊢
  simp only at hgrow ⊢
  by_cases hd : resize_done ok t = (grow_by t).toNat
  · simp only [hd, if_true] at hgrow ⊢
    by_cases hg : 0 ≤ grow_by t
    · obtain ⟨hw, hle⟩ := grow_by_no_wrap t.free_list_nelems t.max_resize hc hc2 hm hm2 hg
      unfold grow_by at *
      rw [hw]; exact hle
    · have hr := grow_by_range t
      unfold is_int32 at hr
      generalize grow_by t = g at *
      unfold wrap32 at *
      omega
  · simp only [hd, if_false] at hgrow
    omega

/-- Claim C9 for 4 records and `max_resize = 10`: the counter grows, to at most
10. -/
theorem resize_never_grows_past_max_resize_witness :
    (4 : Int) < (wrapper_resize_work all_ok 0
        { blank 8 0 10 with free_list_nelems := 4 }).tracker.free_list_nelems ∧
      (wrapper_resize_work all_ok 0
        { blank 8 0 10 with free_list_nelems := 4 }).tracker.free_list_nelems ≤ 10 :=
  ⟨by decide,
    resize_never_grows_past_max_resize all_ok 0 { blank 8 0 10 with free_list_nelems := 4 }
      (by decide) (by decide) (by decide) (by decide) (by decide)⟩

/-- Claim C10 (successful growth) does not hold as stated: its example is off.
With 4 records and `max_resize = 16`, `grow_by` is `min(8, 12) = 8` and a
successful `wrapper_resize_work` leaves 12 records and the counter at 12, not
`grow_by` 4 and capacity 8. -/
theorem resize_of_4_with_max_16_adds_8 :
    ∃ w0,
      boot 1 100 (blank 8 0 16) true all_ok 4 = some w0 ∧
      w0.tracker.free_list_nelems = 4 ∧ w0.tracker.max_resize = 16 ∧
      grow_by w0.tracker = 8 ∧
      (wrapper_resize_work all_ok w0.heap w0.tracker).success = true ∧
      (wrapper_resize_work all_ok w0.heap w0.tracker).tracker.free_list_nelems = 12 ∧
      (wrapper_resize_work all_ok w0.heap w0.tracker).tracker.ll_events_free_list.length =
        12 := by
  refine ⟨_, rfl, ?_, ?_, ?_, ?_, ?_, ?_⟩ <;> decide

/-- Claim C10 as amended. When `grow_by > 0` and every allocation of the call
succeeds, `wrapper_resize_work` prints success, links exactly `grow_by` new
records in front of the global list, pairwise distinct and taken from
addresses the allocator had not handed out (so none of them is a record of
the pool), leaves every per-CPU list and the checked-out records alone, and
sets `free_list_nelems` to the int sum `free_list_nelems + grow_by`, which is
the exact sum whenever `0 <= max_resize`; 4 records with `max_resize = 16`
give `grow_by = 8` and 12 records. -/
theorem resize_success_adds_grow_by (ok : alloc_oracle) (w : world)
    (hg : 0 < grow_by w.tracker)
    (hok : ∀ i, i < (grow_by w.tracker).toNat → slot_ok ok w.tracker.priv_data_size i = true) :
    (wrapper_resize_work ok w.heap w.tracker).success = true ∧
    (wrapper_resize_work ok w.heap w.tracker).adding = grow_by w.tracker ∧
    (wrapper_resize_work ok w.heap w.tracker).tracker.ll_events_free_list =
      batch w.tracker.key_size w.tracker.priv_data_size w.heap (grow_by w.tracker).toNat ++
        w.tracker.ll_events_free_list ∧
    (((wrapper_resize_work ok w.heap w.tracker).tracker.ll_events_free_list.length : Nat) : Int) =
      w.tracker.ll_events_free_list.length + grow_by w.tracker ∧
    (addrs (batch w.tracker.key_size w.tracker.priv_data_size w.heap
      (grow_by w.tracker).toNat)).Nodup ∧
    (∀ e ∈ batch w.tracker.key_size w.tracker.priv_data_size w.heap (grow_by w.tracker).toNat,
      w.heap ≤ e.addr ∧ e.addr < (wrapper_resize_work ok w.heap w.tracker).heap) ∧
    (below w →
      ∀ e ∈ batch w.tracker.key_size w.tracker.priv_data_size w.heap (grow_by w.tracker).toNat,
        e.addr ∉ w.out ∧ e.addr ∉ addrs w.tracker.ll_events_free_list ∧
          ∀ cpu, e.addr ∉ addrs (w.tracker.ll_events_per_cpu_free_list cpu)) ∧
    (wrapper_resize_work ok w.heap w.tracker).tracker.ll_events_per_cpu_free_list =
      w.tracker.ll_events_per_cpu_free_list ∧
    (∃ w1, step w (action.resize ok) = some w1 ∧ w1.out = w.out ∧
      w1.tracker = (wrapper_resize_work ok w.heap w.tracker).tracker) ∧
    (wrapper_resize_work ok w.heap w.tracker).tracker.free_list_nelems =
      wrap32 (w.tracker.free_list_nelems + grow_by w.tracker) ∧
    (is_int32 w.tracker.free_list_nelems → is_int32 w.tracker.max_resize →
      0 ≤ w.tracker.max_resize →
      (wrapper_resize_work ok w.heap w.tracker).tracker.free_list_nelems =
        w.tracker.free_list_nelems + grow_by w.tracker) := by
  have hd : resize_done ok w.tracker = (grow_by w.tracker).toNat := by
    unfold resize_done
    exact good_run_all ok _ _ 0 (fun j _ h2 => hok j (by omega))
  have hbnd := batch_addr_bounds w.tracker.key_size w.tracker.priv_data_size w.heap
    (grow_by w.tracker).toNat
  refine ⟨?_, ?_, ?_, ?_, batch_addr_nodup _ _ _ _, ?_, ?_, ?_, ?_, ?_, ?_⟩
  · simp [wrapper_resize_work_eq, hd]
  · simp [wrapper_resize_work_eq]
  · simp [wrapper_resize_work_eq, hd]
  · simp only [wrapper_resize_work_eq, hd, List.length_append, batch_length]
    push_cast
    rw [Int.toNat_of_nonneg (le_of_lt hg)]
    omega
  · intro e he
    have := hbnd e he
    simp only [wrapper_resize_work_eq, hd, if_true]
    omega
  · intro hbel e he
    have hlow := (hbnd e he).1
    refine ⟨fun hm => ?_, fun hm => ?_, fun cpu hm => ?_⟩
    · have := hbel.2 _ hm; omega
    · have := hbel.1 none _ hm; omega
    · have := hbel.1 (some cpu) _ hm; omega
  · simp [wrapper_resize_work_eq]
  · exact ⟨_, rfl, rfl, rfl⟩
  · simp [wrapper_resize_work_eq, hd]
  · intro h1 h2 h3
    simp only [wrapper_resize_work_eq, hd, if_true]
    have hr := grow_by_range w.tracker
    have hle : grow_by w.tracker ≤ wrap32 (w.tracker.max_resize - w.tracker.free_list_nelems) :=
      min_le_right _ _
    have hle2 : grow_by w.tracker ≤ wrap32 (w.tracker.free_list_nelems * 2) :=
      min_le_left _ _
    unfold is_int32 at h1 h2 hr
    generalize grow_by w.tracker = g at *
    unfold wrap32 at *
    omega

/-- Claim C10 as amended, for 4 records and `max_resize = 16`: `grow_by` is 8
and the counter becomes 12. -/
theorem resize_success_adds_grow_by_witness :
    grow_by { blank 8 0 16 with free_list_nelems := 4 } = 8 ∧
    (wrapper_resize_work all_ok 100
      { blank 8 0 16 with free_list_nelems := 4 }).tracker.free_list_nelems = 12 :=
  ⟨by decide,
    (resize_success_adds_grow_by all_ok
      { nr_cpus := 1, heap := 100, tracker := { blank 8 0 16 with free_list_nelems := 4 },
        out := [] }
      (by decide) (by decide)).2.2.2.2.2.2.2.2.2.2 (by decide) (by decide) (by decide)⟩

/-- Claim C11 (resize failure keeps capacity). When an allocation of the record
with batch index `k < grow_by` fails, `wrapper_resize_work` prints "resize
error", links only records with an index below `k` in front of the global list
(exactly the first `k` when no earlier allocation failed), leaves
`free_list_nelems` as it was and leaves every per-CPU list as it was. -/
theorem resize_failure_keeps_capacity (ok : alloc_oracle) (heap : Nat) (t : latency_tracker)
    (k : Nat) (hk : (k : Int) < grow_by t)
    (hf : slot_ok ok t.priv_data_size k = false) :
    (wrapper_resize_work ok heap t).success = false ∧
    resize_done ok t ≤ k ∧
    (wrapper_resize_work ok heap t).tracker.ll_events_free_list =
      batch t.key_size t.priv_data_size heap (resize_done ok t) ++ t.ll_events_free_list ∧
    (wrapper_resize_work ok heap t).tracker.ll_events_free_list.length ≤
      t.ll_events_free_list.length + k ∧
    ((∀ j, j < k → slot_ok ok t.priv_data_size j = true) → resize_done ok t = k) ∧
    (wrapper_resize_work ok heap t).tracker.free_list_nelems = t.free_list_nelems ∧
    (wrapper_resize_work ok heap t).tracker.ll_events_per_cpu_free_list =
      t.ll_events_per_cpu_free_list := by
  have hkn : k < (grow_by t).toNat := by omega
  obtain ⟨hle, hne⟩ := resize_done_lt ok t k hkn hf
  rw [resize_failed_eq ok heap t hne]
  refine ⟨rfl, hle, rfl, ?_, fun hprev => resize_done_first_fail ok t k hkn hprev hf, rfl, rfl⟩
  simp only [List.length_append, batch_length]
  omega

/-- Claim C11 for 4 records, `max_resize = 16` and the key buffer of the record
with batch index 2 failing: "resize error", counter still 4. -/
theorem resize_failure_keeps_capacity_witness :
    (wrapper_resize_work (fail_at 2 alloc_site.key) 100
      { blank 8 0 16 with free_list_nelems := 4 }).success = false ∧
    (wrapper_resize_work (fail_at 2 alloc_site.key) 100
      { blank 8 0 16 with free_list_nelems := 4 }).tracker.free_list_nelems = 4 :=
  have h := resize_failure_keeps_capacity (fail_at 2 alloc_site.key) 100
    { blank 8 0 16 with free_list_nelems := 4 } 2 (by decide) (by decide)
  ⟨h.1, h.2.2.2.2.2.1⟩

/-- Claim C12 (initial capacity and exhaustion). After a successful
`wrapper_freelist_init` with `max_events = N >= 0`, `free_list_nelems` is `N`,
and on any CPU the first `N` gets return the `N` records of the pool, pairwise
distinct, while the next get returns NULL; for `N = 0` the very first get
returns NULL. -/
theorem init_capacity_and_exhaustion (nr_cpus heap : Nat) (t : latency_tracker) (pok : Bool)
    (ok : alloc_oracle) (N : Int) (w0 : world) (cpu : Nat) (hN : 0 ≤ N)
    (hb : boot nr_cpus heap t pok ok N = some w0) :
    w0.tracker.free_list_nelems = N ∧
    ((batch t.key_size t.priv_data_size heap N.toNat).length : Int) = N ∧
    (get_events w0.tracker cpu (N.toNat + 1)).1 =
      (batch t.key_size t.priv_data_size heap N.toNat).map some ++ [none] ∧
    (get_events w0.tracker cpu N.toNat).1 =
      (batch t.key_size t.priv_data_size heap N.toNat).map some ∧
    (addrs (batch t.key_size t.priv_data_size heap N.toNat)).Nodup ∧
    (N = 0 → (wrapper_freelist_get_event w0.tracker cpu).1 = none) := by
  obtain ⟨_, _, rfl⟩ := boot_eq _ _ _ _ _ _ _ hb
  have hall := get_events_global cpu [] (batch t.key_size t.priv_data_size heap N.toNat)
    { t with
      free_list_nelems := N,
      resize_event := marker_after (t.max_resize != 0) N t.priv_data_size 0 N.toNat heap
        t.resize_event,
      ll_events_per_cpu_free_list := fun _ => [] } rfl
  simp only [batch_length, List.append_nil] at hall
  refine ⟨rfl, ?_, ?_, ?_, batch_addr_nodup _ _ _ _, ?_⟩
  · rw [batch_length]; exact Int.toNat_of_nonneg hN
  · rw [get_events_add, hall]
    simp only
    rw [get_events_none cpu _ rfl rfl 1]
    rfl
  · simp only
    rw [hall]
  · intro h0
    subst h0
    simp only [Int.toNat_zero, batch_zero]
    rw [get_event_empty _ cpu rfl rfl]

/-- Claim C12 for `N = 3` on CPU 1 of two: three records, then NULL. -/
theorem init_capacity_and_exhaustion_witness :
    ∃ w0,
      boot 2 100 (blank 8 0 16) true all_ok 3 = some w0 ∧
      w0.tracker.free_list_nelems = 3 ∧
      (get_events w0.tracker 1 (3 + 1)).1 =
        [some (new_event 8 0 104), some (new_event 8 0 102), some (new_event 8 0 100), none] :=
  ⟨_, rfl,
    (init_capacity_and_exhaustion 2 100 (blank 8 0 16) true all_ok 3 _ 1 (by decide) rfl).1,
    (init_capacity_and_exhaustion 2 100 (blank 8 0 16) true all_ok 3 _ 1 (by decide) rfl).2.2.1⟩

/-- Claim C13 (growth ordering). A successful `wrapper_resize_work` with
`grow_by = g > 0` allocates the records `n_0, ..., n_(g-1)` in that order
(`n_j` at allocator position `heap + j * stride`) and leaves the global list as
`[n_(g-1), ..., n_0]` followed by its old contents: the record allocated last
is the head, and `g` gets on a CPU whose own list is empty return the new
records, newest first, and leave the old contents of the global list in
place. -/
theorem growth_is_stacked_on_the_global_list (ok : alloc_oracle) (heap : Nat)
    (t : latency_tracker) (hg : 0 < grow_by t)
    (hok : ∀ i, i < (grow_by t).toNat → slot_ok ok t.priv_data_size i = true) :
    (wrapper_resize_work ok heap t).success = true ∧
    (∀ j, j < (grow_by t).toNat →
      kzalloc_event ok j t (heap + j * stride t.priv_data_size) =
        (some (new_event t.key_size t.priv_data_size (heap + j * stride t.priv_data_size)),
          heap + (j + 1) * stride t.priv_data_size)) ∧
    (wrapper_resize_work ok heap t).tracker.ll_events_free_list =
      ((List.range (grow_by t).toNat).map
        (fun j => new_event t.key_size t.priv_data_size
          (heap + j * stride t.priv_data_size))).reverse ++ t.ll_events_free_list ∧
    (wrapper_resize_work ok heap t).tracker.ll_events_free_list.head? =
      some (new_event t.key_size t.priv_data_size
        (heap + ((grow_by t).toNat - 1) * stride t.priv_data_size)) ∧
    (∀ cpu, t.ll_events_per_cpu_free_list cpu = [] →
      get_events (wrapper_resize_work ok heap t).tracker cpu (grow_by t).toNat =
        ((((List.range (grow_by t).toNat).map
            (fun j => new_event t.key_size t.priv_data_size
              (heap + j * stride t.priv_data_size))).reverse).map some,
          { (wrapper_resize_work ok heap t).tracker with
            ll_events_free_list := t.ll_events_free_list })) := by
  have hpos : 0 < (grow_by t).toNat := by omega
  rw [resize_ok_eq ok heap t hg hok]
  refine ⟨rfl, ?_, rfl, ?_, ?_⟩
  · intro j hj
    rw [kzalloc_event_eq, if_pos (hok j hj), Nat.add_mul, Nat.one_mul, Nat.add_assoc]
  · simp only
    have h0 := batch_get t.key_size t.priv_data_size heap (grow_by t).toNat 0 hpos
    rw [List.head?_append]
    rw [List.head?_eq_getElem?, h0]
    rfl
  · intro cpu hs
    have := get_events_global cpu t.ll_events_free_list
      (batch t.key_size t.priv_data_size heap (grow_by t).toNat)
      { t with
        free_list_nelems := wrap32 (t.free_list_nelems + grow_by t),
        resize_event := some (heap + (grow_by t).toNat / 2 * stride t.priv_data_size) } hs
    rw [batch_length] at this
    exact this

/-- Claim C13 for a pool with one linked record and `grow_by = 2`: the two new
records, the later one first, in front of the old one. -/
theorem growth_is_stacked_on_the_global_list_witness :
    (wrapper_resize_work all_ok 100
      { blank 8 0 16 with
        free_list_nelems := 1,
        ll_events_free_list := [new_event 8 0 50] }).tracker.ll_events_free_list =
      [new_event 8 0 102, new_event 8 0 100, new_event 8 0 50] :=
  (growth_is_stacked_on_the_global_list all_ok 100
    { blank 8 0 16 with free_list_nelems := 1, ll_events_free_list := [new_event 8 0 50] }
    (by decide) (by decide)).2.2.1

/-- Claim C14 (release targets only the current per-CPU list). After
`wrapper_freelist_put_event` of a record on CPU `cpu`, the list of `cpu` is the
record, zeroed and with its address kept, followed by the previous contents;
the lists of the other CPUs, the global list, `free_list_nelems`, `max_resize`,
the marker and the two sizes are unchanged. -/
theorem put_event_touches_only_own_list (t : latency_tracker) (cpu : Nat)
    (e : latency_tracker_event) :
    (wrapper_freelist_put_event t cpu e).ll_events_per_cpu_free_list cpu =
      recycled t.key_size t.priv_data_size e :: t.ll_events_per_cpu_free_list cpu ∧
    (recycled t.key_size t.priv_data_size e).addr = e.addr ∧
    (∀ c, c ≠ cpu →
      (wrapper_freelist_put_event t cpu e).ll_events_per_cpu_free_list c =
        t.ll_events_per_cpu_free_list c) ∧
    (wrapper_freelist_put_event t cpu e).ll_events_free_list = t.ll_events_free_list ∧
    (wrapper_freelist_put_event t cpu e).free_list_nelems = t.free_list_nelems ∧
    (wrapper_freelist_put_event t cpu e).max_resize = t.max_resize ∧
    (wrapper_freelist_put_event t cpu e).resize_event = t.resize_event ∧
    (wrapper_freelist_put_event t cpu e).key_size = t.key_size ∧
    (wrapper_freelist_put_event t cpu e).priv_data_size = t.priv_data_size ∧
    __wrapper_freelist_put_event t cpu e = wrapper_freelist_put_event t cpu e := by
  rw [put_event_eq]
  refine ⟨by simp, recycled_addr _ _ _, fun c hc => ?_, rfl, rfl, rfl, rfl, rfl, rfl, rfl⟩
  simp [Function.update_noteq hc]

/-- Claim C15 (resize marker after growth). After a successful
`wrapper_resize_work` with `grow_by = g >= 1` the marker `resize_event` is the
record allocated by the iteration with index `g / 2` (rounded down, which is
the C quotient), one of the `g` new records, and that record sits at position
`g - 1 - g / 2` of the global list, counted from the head. -/
theorem resize_marker_is_middle_of_batch (ok : alloc_oracle) (heap : Nat)
    (t : latency_tracker) (hg : 1 ≤ grow_by t)
    (hok : ∀ i, i < (grow_by t).toNat → slot_ok ok t.priv_data_size i = true) :
    (wrapper_resize_work ok heap t).success = true ∧
    (wrapper_resize_work ok heap t).tracker.resize_event =
      some (new_event t.key_size t.priv_data_size
        (heap + (grow_by t).toNat / 2 * stride t.priv_data_size)).addr ∧
    kzalloc_event ok ((grow_by t).toNat / 2) t
        (heap + (grow_by t).toNat / 2 * stride t.priv_data_size) =
      (some (new_event t.key_size t.priv_data_size
          (heap + (grow_by t).toNat / 2 * stride t.priv_data_size)),
        heap + ((grow_by t).toNat / 2 + 1) * stride t.priv_data_size) ∧
    new_event t.key_size t.priv_data_size
        (heap + (grow_by t).toNat / 2 * stride t.priv_data_size) ∈
      batch t.key_size t.priv_data_size heap (grow_by t).toNat ∧
    (wrapper_resize_work ok heap t).tracker.ll_events_free_list[(grow_by t).toNat - 1 -
        (grow_by t).toNat / 2]? =
      some (new_event t.key_size t.priv_data_size
        (heap + (grow_by t).toNat / 2 * stride t.priv_data_size)) ∧
    (((grow_by t).toNat / 2 : Nat) : Int) = Int.tdiv (grow_by t) 2 := by
  have hpos : 0 < (grow_by t).toNat := by omega
  have hp : (grow_by t).toNat - 1 - (grow_by t).toNat / 2 < (grow_by t).toNat := by omega
  have hget := batch_get t.key_size t.priv_data_size heap (grow_by t).toNat _ hp
  have hidx : (grow_by t).toNat - 1 - ((grow_by t).toNat - 1 - (grow_by t).toNat / 2) =
      (grow_by t).toNat / 2 := by omega
  rw [hidx] at hget
  rw [resize_ok_eq ok heap t (by omega) hok]
  refine ⟨rfl, rfl, ?_, ?_, ?_, ?_⟩
  · rw [kzalloc_event_eq, if_pos (hok _ (by omega)), Nat.add_mul, Nat.one_mul, Nat.add_assoc]
  · exact List.getElem?_mem hget
  · simp only
    rw [List.getElem?_append_left (by rw [batch_length]; exact hp)]
    exact hget
  · rw [Int.tdiv_eq_ediv (by omega) (by decide)]
    omega

/-- Claim C15 for `grow_by = 8` from allocator position 100 with two addresses
per record: the marker is the record at address 108, the one with index 4. -/
theorem resize_marker_is_middle_of_batch_witness :
    (wrapper_resize_work all_ok 100
      { blank 8 0 16 with free_list_nelems := 4 }).tracker.resize_event = some 108 :=
  (resize_marker_is_middle_of_batch all_ok 100 { blank 8 0 16 with free_list_nelems := 4 }
    (by decide) (by decide)).2.1

/-- Claim C16 (resize marker after init). After a successful
`wrapper_freelist_init` with `max_events = N >= 1`: when `max_resize` is not
zero the marker `resize_event` is the record allocated by the iteration with
index `N / 2` (rounded down, the C quotient), and on the fresh pool the get
number `N - N / 2`, and no other of the first `N`, returns it; when
`max_resize` is zero the marker is left as it was. -/
theorem init_marker_is_middle_record (nr_cpus heap : Nat) (t : latency_tracker) (pok : Bool)
    (ok : alloc_oracle) (N : Int) (w0 : world) (cpu : Nat) (hN : 1 ≤ N)
    (hb : boot nr_cpus heap t pok ok N = some w0) :
    (t.max_resize ≠ 0 →
      w0.tracker.resize_event =
        some (new_event t.key_size t.priv_data_size
          (heap + N.toNat / 2 * stride t.priv_data_size)).addr ∧
      kzalloc_event ok (N.toNat / 2) t (heap + N.toNat / 2 * stride t.priv_data_size) =
        (some (new_event t.key_size t.priv_data_size
            (heap + N.toNat / 2 * stride t.priv_data_size)),
          heap + (N.toNat / 2 + 1) * stride t.priv_data_size) ∧
      (get_events w0.tracker cpu N.toNat).1[N.toNat - N.toNat / 2 - 1]? =
        some (some (new_event t.key_size t.priv_data_size
          (heap + N.toNat / 2 * stride t.priv_data_size))) ∧
      (∀ j e, (get_events w0.tracker cpu N.toNat).1[j]? = some (some e) →
        some e.addr = w0.tracker.resize_event → j = N.toNat - N.toNat / 2 - 1)) ∧
    (t.max_resize = 0 → w0.tracker.resize_event = t.resize_event) ∧
    ((N.toNat / 2 : Nat) : Int) = Int.tdiv N 2 := by
  obtain ⟨_, hdone, rfl⟩ := boot_eq _ _ _ _ _ _ _ hb
  have hpos : 0 < N.toNat := by omega
  have hall := get_events_global cpu [] (batch t.key_size t.priv_data_size heap N.toNat)
    { t with
      free_list_nelems := N,
      resize_event := marker_after (t.max_resize != 0) N t.priv_data_size 0 N.toNat heap
        t.resize_event,
      ll_events_per_cpu_free_list := fun _ => [] } rfl
  simp only [batch_length, List.append_nil] at hall
  have hs := stride_pos t.priv_data_size
  refine ⟨fun hm => ?_, fun hm => ?_, ?_⟩
  · have hmark : (t.max_resize != 0) = true := by simpa using hm
    have hmk : marker_after (t.max_resize != 0) N t.priv_data_size 0 N.toNat heap
        t.resize_event = some (heap + N.toNat / 2 * stride t.priv_data_size) := by
      rw [hmark]; exact marker_after_full N _ _ _ (by omega)
    have hp : N.toNat - N.toNat / 2 - 1 < N.toNat := by omega
    have hget := batch_get t.key_size t.priv_data_size heap N.toNat _ hp
    have hidx : N.toNat - 1 - (N.toNat - N.toNat / 2 - 1) = N.toNat / 2 := by omega
    rw [hidx] at hget
    refine ⟨hmk, ?_, ?_, ?_⟩
    · have hok := good_run_ok ok t.priv_data_size N.toNat 0 (N.toNat / 2) (by omega)
        (by unfold init_done at hdone; rw [hdone]; omega)
      rw [kzalloc_event_eq, if_pos hok, Nat.add_mul, Nat.one_mul, Nat.add_assoc]
    · simp only
      rw [hall]
      simp only [List.getElem?_map, hget, Option.map_some']
    · intro j e hj hea
      simp only at hj hea
      rw [hall] at hj
      rw [hmk] at hea
      simp only [List.getElem?_map, Option.map_eq_some', Option.some.injEq] at hj hea
      obtain ⟨e1, hj1, rfl⟩ := hj
      have hjlt : j < N.toNat := by
        have := List.getElem?_eq_some.mp hj1
        obtain ⟨h, _⟩ := this
        rw [batch_length] at h; exact h
      rw [batch_get _ _ _ _ _ hjlt] at hj1
      simp only [Option.some.injEq] at hj1
      subst hj1
      simp only [new_event] at hea
      have hmul : (N.toNat - 1 - j) * stride t.priv_data_size =
          N.toNat / 2 * stride t.priv_data_size := by omega
      have := Nat.eq_of_mul_eq_mul_right hs hmul
      omega
  · have hmark : (t.max_resize != 0) = false := by simp [hm]
    simp only
    rw [hmark, marker_after_off]
  · rw [Int.tdiv_eq_ediv (by omega) (by decide)]
    omega

/-- Claim C16 for `N = 5` and `max_resize = 16`: the marker is the record with
index 2, returned by the third get. -/
theorem init_marker_is_middle_record_witness :
    ∃ w0,
      boot 1 100 (blank 8 0 16) true all_ok 5 = some w0 ∧
      w0.tracker.resize_event = Option.some 104 ∧
      (get_events w0.tracker 0 5).1[2]? =
        Option.some (Option.some (new_event 8 0 104)) :=
  ⟨_, rfl,
    ((init_marker_is_middle_record 1 100 (blank 8 0 16) true all_ok 5 _ 0 (by decide) rfl).1
      (by decide)).1,
    ((init_marker_is_middle_record 1 100 (blank 8 0 16) true all_ok 5 _ 0 (by decide) rfl).1
      (by decide)).2.2.1⟩

/-- Claim C17 (destroy counts everything when the global list is not empty).
With at least one record in the global list, `wrapper_freelist_destroy` frees
the records of the global list and of the per-CPU lists of all online CPUs,
prints their number, the length of the global list plus the lengths of those
per-CPU lists, calls `free_percpu`, and leaves the global list and those
per-CPU lists empty. -/
theorem destroy_frees_all_when_global_list_not_empty (nr_cpus : Nat) (t : latency_tracker)
    (h : t.ll_events_free_list ≠ []) :
    (wrapper_freelist_destroy nr_cpus t).freed =
      t.ll_events_free_list ++ (List.range nr_cpus).flatMap t.ll_events_per_cpu_free_list ∧
    (wrapper_freelist_destroy nr_cpus t).freed.length =
      t.ll_events_free_list.length + shard_count nr_cpus t ∧
    (wrapper_freelist_destroy nr_cpus t).printed =
      some (t.ll_events_free_list.length + shard_count nr_cpus t) ∧
    (wrapper_freelist_destroy nr_cpus t).tracker.ll_events_free_list = [] ∧
    (∀ cpu, cpu < nr_cpus →
      (wrapper_freelist_destroy nr_cpus t).tracker.ll_events_per_cpu_free_list cpu = []) ∧
    (wrapper_freelist_destroy nr_cpus t).percpu_released = true := by
  rw [destroy_eq nr_cpus t h]
  refine ⟨rfl, ?_, rfl, rfl, fun cpu hc => ?_, rfl⟩
  · simp only [List.length_append, length_flatMap_shards]
  · simp [hc]

/-- Claim C17 for one record in the global list and two in the list of CPU 1:
three records freed and counted. -/
theorem destroy_frees_all_when_global_list_not_empty_witness :
    ∃ w0 w,
      boot 2 100 (blank 8 0 0) true all_ok 3 = some w0 ∧
      run w0 [action.get 0, action.get 1, action.put 1 (new_event 8 0 104),
        action.put 1 (new_event 8 0 102)] = some w ∧
      (wrapper_freelist_destroy 2 w.tracker).printed = some (1 + 2) ∧
      (wrapper_freelist_destroy 2 w.tracker).freed.length = 3 :=
  ⟨_, _, rfl, rfl,
    (destroy_frees_all_when_global_list_not_empty 2 _ (by decide)).2.2.1,
    (destroy_frees_all_when_global_list_not_empty 2 _ (by decide)).2.1⟩

/-- Claim C18 (records of a failed growth stay in the pool) does not hold as
stated in its closing clause. In both states below a resize fails first at
batch index 3, links 3 records and leaves the counter at 4. After init with 4
records and one get, the free records then number 6: 2 more than the counter,
not 3. After init with 4 records and an earlier resize that failed the same
way, with no record checked out, they number 10: 6 more than the counter. -/
theorem failed_resize_excess_differs_from_k :
    (∃ w0 w,
      boot 1 100 (blank 8 0 16) true all_ok 4 = some w0 ∧
      run w0 [action.get 0] = some w ∧
      (3 : Int) < grow_by w.tracker ∧
      (∀ j, j < 3 → slot_ok (fail_at 3 alloc_site.event) w.tracker.priv_data_size j = true) ∧
      slot_ok (fail_at 3 alloc_site.event) w.tracker.priv_data_size 3 = false ∧
      (wrapper_resize_work (fail_at 3 alloc_site.event) w.heap
        w.tracker).tracker.ll_events_free_list.length =
          w.tracker.ll_events_free_list.length + 3 ∧
      (wrapper_resize_work (fail_at 3 alloc_site.event) w.heap
        w.tracker).tracker.free_list_nelems = 4 ∧
      free_count 1
        (wrapper_resize_work (fail_at 3 alloc_site.event) w.heap w.tracker).tracker = 4 + 2) ∧
    (∃ w0 w,
      boot 1 100 (blank 8 0 16) true all_ok 4 = some w0 ∧
      run w0 [action.resize (fail_at 3 alloc_site.event)] = some w ∧
      w.out = [] ∧
      (3 : Int) < grow_by w.tracker ∧
      (∀ j, j < 3 → slot_ok (fail_at 3 alloc_site.event) w.tracker.priv_data_size j = true) ∧
      slot_ok (fail_at 3 alloc_site.event) w.tracker.priv_data_size 3 = false ∧
      (wrapper_resize_work (fail_at 3 alloc_site.event) w.heap
        w.tracker).tracker.ll_events_free_list.length =
          w.tracker.ll_events_free_list.length + 3 ∧
      (wrapper_resize_work (fail_at 3 alloc_site.event) w.heap
        w.tracker).tracker.free_list_nelems = 4 ∧
      free_count 1
        (wrapper_resize_work (fail_at 3 alloc_site.event) w.heap w.tracker).tracker = 4 + 6) := by
  constructor
  · refine ⟨_, _, rfl, rfl, ?_, ?_, ?_, ?_, ?_, ?_⟩ <;> decide
  · refine ⟨_, _, rfl, rfl, ?_, ?_, ?_, ?_, ?_, ?_, ?_⟩ <;> decide

/-- Claim C18 as amended. When the first allocation to fail belongs to the
record with batch index `k < grow_by`, after `wrapper_resize_work` the global
list holds the `k` completed records in front of its old contents,
`free_list_nelems` is unchanged and the checked-out records are untouched: the
pool has `k` more free records than before. When, before the call, free and
checked-out records made up `free_list_nelems`, they exceed the counter by `k`
afterwards, and with no record checked out the free records alone do. -/
theorem failed_resize_strands_records (ok : alloc_oracle) (w : world) (k : Nat)
    (hk : (k : Int) < grow_by w.tracker)
    (hprev : ∀ j, j < k → slot_ok ok w.tracker.priv_data_size j = true)
    (hf : slot_ok ok w.tracker.priv_data_size k = false) :
    (wrapper_resize_work ok w.heap w.tracker).tracker.ll_events_free_list =
      batch w.tracker.key_size w.tracker.priv_data_size w.heap k ++
        w.tracker.ll_events_free_list ∧
    (wrapper_resize_work ok w.heap w.tracker).tracker.ll_events_free_list.length =
      w.tracker.ll_events_free_list.length + k ∧
    (wrapper_resize_work ok w.heap w.tracker).tracker.free_list_nelems =
      w.tracker.free_list_nelems ∧
    step w (action.resize ok) =
      some { w with
        heap := (wrapper_resize_work ok w.heap w.tracker).heap,
        tracker := (wrapper_resize_work ok w.heap w.tracker).tracker } ∧
    free_count w.nr_cpus (wrapper_resize_work ok w.heap w.tracker).tracker =
      free_count w.nr_cpus w.tracker + k ∧
    (conserved w →
      ((free_count w.nr_cpus (wrapper_resize_work ok w.heap w.tracker).tracker +
          w.out.length : Nat) : Int) =
        (wrapper_resize_work ok w.heap w.tracker).tracker.free_list_nelems + k) ∧
    (conserved w → w.out = [] →
      ((free_count w.nr_cpus (wrapper_resize_work ok w.heap w.tracker).tracker : Nat) : Int) =
        (wrapper_resize_work ok w.heap w.tracker).tracker.free_list_nelems + k) := by
  have hkn : k < (grow_by w.tracker).toNat := by omega
  have hd := resize_done_first_fail ok w.tracker k hkn hprev hf
  have hne : resize_done ok w.tracker ≠ (grow_by w.tracker).toNat := by omega
  have hfc : free_count w.nr_cpus (wrapper_resize_work ok w.heap w.tracker).tracker =
      free_count w.nr_cpus w.tracker + k := by
    rw [resize_failed_eq ok w.heap w.tracker hne, hd]
    unfold free_count
    have hsc : ∀ (m : Option Nat) (l : List latency_tracker_event),
        shard_count w.nr_cpus { w.tracker with resize_event := m, ll_events_free_list := l } =
        shard_count w.nr_cpus w.tracker := fun _ _ => rfl
    rw [hsc]
    simp only [List.length_append, batch_length]
    omega
  have hcap : (wrapper_resize_work ok w.heap w.tracker).tracker.free_list_nelems =
      w.tracker.free_list_nelems := by
    rw [resize_failed_eq ok w.heap w.tracker hne]
  refine ⟨?_, ?_, hcap, rfl, hfc, ?_, ?_⟩
  · rw [resize_failed_eq ok w.heap w.tracker hne, hd]
  · rw [resize_failed_eq ok w.heap w.tracker hne, hd]
    simp only [List.length_append, batch_length]
    omega
  · intro hc
    unfold conserved at hc
    rw [hfc, hcap, ← hc]
    push_cast
    omega
  · intro hc ho
    unfold conserved at hc
    rw [ho] at hc
    rw [hfc, hcap, ← hc]
    push_cast
    simp

/-- Claim C18 as amended, for a fresh pool of 4 records and a resize failing
at batch index 3: counter 4, seven free records. -/
theorem failed_resize_strands_records_witness :
    ∃ w0,
      boot 1 100 (blank 8 0 16) true all_ok 4 = some w0 ∧
      (wrapper_resize_work (fail_at 3 alloc_site.event) w0.heap
        w0.tracker).tracker.free_list_nelems = 4 ∧
      free_count w0.nr_cpus
        (wrapper_resize_work (fail_at 3 alloc_site.event) w0.heap w0.tracker).tracker = 4 + 3 :=
  ⟨_, rfl, by decide,
    (failed_resize_strands_records (fail_at 3 alloc_site.event) _ 3 (by decide) (by decide)
      (by decide)).2.2.2.2.1⟩

/-- Claim C19 (unavailable does not mean empty pool). With two CPUs, after
init with one record, a get on CPU 0 and the put of that record on CPU 1, a
get on CPU 0 returns NULL although one record is free. In general a get on a
CPU whose own list and the global list are empty returns NULL whatever the
other per-CPU lists hold; the record a get returns was linked in the global
list or in the list of the calling CPU, the lists of the other CPUs are not
touched, and in a pool reached from a successful init the record returned is
in no other CPU's list. -/
theorem unavailable_with_free_records_elsewhere :
    (∃ w0 w,
      boot 2 100 (blank 8 0 0) true all_ok 1 = some w0 ∧
      run w0 [action.get 0, action.put 1 (new_event 8 0 100)] = some w ∧
      w.tracker.ll_events_per_cpu_free_list 1 = [new_event 8 0 100] ∧
      free_count 2 w.tracker = 1 ∧
      (wrapper_freelist_get_event w.tracker 0).1 = none) ∧
    (∀ (t : latency_tracker) (cpu : Nat),
      t.ll_events_per_cpu_free_list cpu = [] → t.ll_events_free_list = [] →
      wrapper_freelist_get_event t cpu = (none, t)) ∧
    (∀ (t : latency_tracker) (cpu : Nat) (e : latency_tracker_event),
      (wrapper_freelist_get_event t cpu).1 = some e →
      e ∈ t.ll_events_free_list ∨ e ∈ t.ll_events_per_cpu_free_list cpu) ∧
    (∀ (t : latency_tracker) (cpu c : Nat), c ≠ cpu →
      (wrapper_freelist_get_event t cpu).2.ll_events_per_cpu_free_list c =
        t.ll_events_per_cpu_free_list c) ∧
    (∀ (nr_cpus heap : Nat) (t : latency_tracker) (pok : Bool) (ok : alloc_oracle) (N : Int)
        (acts : List action) (w0 w : world) (cpu c : Nat) (e : latency_tracker_event),
      boot nr_cpus heap t pok ok N = some w0 → run w0 acts = some w →
      (wrapper_freelist_get_event w.tracker cpu).1 = some e → c ≠ cpu →
      e.addr ∉ addrs (w.tracker.ll_events_per_cpu_free_list c)) := by
  refine ⟨⟨_, _, rfl, rfl, by decide, by decide, by decide⟩,
    fun t cpu h1 h2 => get_event_empty t cpu h1 h2,
    fun t cpu e h => get_event_mem t cpu e h, ?_, ?_⟩
  · intro t cpu c hc
    rcases hs : t.ll_events_per_cpu_free_list cpu with _ | ⟨e, rest⟩
    · rcases hg : t.ll_events_free_list with _ | ⟨e, rest⟩
      · simp [get_event_empty t cpu hs hg]
      · simp [get_event_global t cpu e rest hs hg]
    · simp [get_event_shard t cpu e rest hs, Function.update_noteq hc]
  · intro nr_cpus heap t pok ok N acts w0 w cpu c e hb hr hg hc hmem
    have hinv : inv w := inv_run acts w0 w (inv_boot _ _ _ _ _ _ _ hb) hr
    have hc2 : (some c : Option Nat) ≠ some cpu := fun h => hc (Option.some.inj h)
    rcases get_event_mem w.tracker cpu e hg with hm | hm
    · have := hinv.1.2.1 none (some c) e.addr (List.mem_map_of_mem _ hm) hmem
      exact absurd this (by simp)
    · have := hinv.1.2.1 (some cpu) (some c) e.addr (List.mem_map_of_mem _ hm) hmem
      exact hc2 this.symm

end FreelistLL
